import Mathlib

/-!
Verification of the hbt-go multi-valued logic engine.

This file shallowly embeds the packed Kleene (3-valued) and Belnap
(4-valued) bitvector engine of the hbt-go repository:

* the 4-valued scalar type `Value` of package `belnap` and the 3-valued
  scalar type `Kleene` of package `kleene`;
* the shared word-plane helpers (`wordsNeeded`, `tailMask`, `andWord`,
  `orWord`, `notWord`, `mergeWord`) of package `attic`;
* the packed vectors `attic.BelnapVec`, `attic.KleeneVec` and
  `kleene.Vec`.

Go machine words (`uint64`) are modelled as `Nat` together with explicit
masking by `2 ^ 64 - 1` where complement matters; all stored words are
produced by 64-bit operations so they stay below `2 ^ 64`.  The Go flat
interleaved word array `[p_0, n_0, p_1, n_1, ...]` is modelled as a
`List (Nat × Nat)` of word pairs: entry `k` of the list is the pair
`(words[2k], words[2k+1])` of the Go slice.  In-place mutation becomes
functional update, Go panics become `Option.none` / dedicated error
results, and `Get`'s `(Value, error)` pair becomes `Except`.
-/

/-- Word size constant: the all-ones 64-bit word, Go's `^uint64(0)`. -/
def U64 : Nat := 2 ^ 64 - 1

/-- Go's 64-bit complement `^x` on a `uint64`, modelled on `Nat`. -/
def not64 (x : Nat) : Nat := U64 ^^^ x

/-- Go constant `bitsLog2 = 6` (package attic and package kleene). -/
def bitsLog2 : Nat := 6

/-- Go constant `bitsMask = (1 << bitsLog2) - 1 = 63`. -/
def bitsMask : Nat := (1 <<< bitsLog2) - 1

/-- Go `wordsNeeded(n) = (n + bitsMask) >> bitsLog2` (identical in packages
attic and kleene). -/
def wordsNeeded (n : Nat) : Nat := (n + bitsMask) >>> bitsLog2

/-- Go `tailMask(n)`: all-ones when `n % 64 == 0`, else low `n % 64` bits set
(identical in packages attic and kleene). -/
def tailMask (n : Nat) : Nat :=
  if n &&& bitsMask = 0 then U64 else (1 <<< (n &&& bitsMask)) - 1

/-- Go `bits.OnesCount64`: population count of a 64-bit word. -/
def OnesCount64 (x : Nat) : Nat :=
  ((List.range 64).filter (fun b => x.testBit b)).length

/-- Word-parallel And of package attic: `aPos & bPos, aNeg | bNeg`. -/
def andWord (aPos aNeg bPos bNeg : Nat) : Nat × Nat :=
  (aPos &&& bPos, aNeg ||| bNeg)

/-- Word-parallel Or of package attic: `aPos | bPos, aNeg & bNeg`. -/
def orWord (aPos aNeg bPos bNeg : Nat) : Nat × Nat :=
  (aPos ||| bPos, aNeg &&& bNeg)

/-- Word-parallel Not of package attic: swaps the two planes. -/
def notWord (pos neg : Nat) : Nat × Nat := (neg, pos)

/-- Word-parallel Merge of package attic: `aPos | bPos, aNeg | bNeg`. -/
def mergeWord (aPos aNeg bPos bNeg : Nat) : Nat × Nat :=
  (aPos ||| bPos, aNeg ||| bNeg)

namespace Belnap

/-- The 4-valued scalar `Value` of package belnap (and of package attic,
whose identical `Value` file is pinned by `value_test.go`).  Encoding in Go:
`(neg_bit << 1) | pos_bit` with Unknown = 0b00, True = 0b01, False = 0b10,
Both = 0b11. -/
inductive Value where
  | Unknown
  | True
  | False
  | Both
deriving DecidableEq, Fintype, Repr

/-- Numeric encoding of a `Value`, the Go `uint8` value. -/
def Value.toNat : Value → Nat
  | .Unknown => 0
  | .True => 1
  | .False => 2
  | .Both => 3

/-- Go's `fromBits` array `[Unknown, True, False, Both]`, indexed by
`negBit<<1 | posBit`. -/
def fromBits (n : Nat) : Value :=
  match n with
  | 0 => .Unknown
  | 1 => .True
  | 2 => .False
  | _ => .Both

/-- Go `Value.Not`: swaps the pos and neg bits. -/
def Value.Not (v : Value) : Value :=
  fromBits ((v.toNat >>> 1) ||| ((v.toNat &&& 1) <<< 1))

/-- Go `Value.And`: `rPos = pos&pos`, `rNeg = neg|neg`. -/
def Value.And (v other : Value) : Value :=
  fromBits ((((v.toNat >>> 1) ||| (other.toNat >>> 1)) <<< 1) |||
    ((v.toNat &&& 1) &&& (other.toNat &&& 1)))

/-- Go `Value.Or`: `rPos = pos|pos`, `rNeg = neg&neg`. -/
def Value.Or (v other : Value) : Value :=
  fromBits ((((v.toNat >>> 1) &&& (other.toNat >>> 1)) <<< 1) |||
    ((v.toNat &&& 1) ||| (other.toNat &&& 1)))

/-- Go `Value.Implies`: `v.Not().Or(other)`. -/
def Value.Implies (v other : Value) : Value := v.Not.Or other

/-- Go `Value.Merge`: bitwise or of the encodings. -/
def Value.Merge (v other : Value) : Value :=
  fromBits (v.toNat ||| other.toNat)

/-- Go `Value.IsKnown`: anything but Unknown. -/
def Value.IsKnown (v : Value) : Bool := v != Value.Unknown

/-- Go `Value.IsDetermined`: exactly one of the two bits set. -/
def Value.IsDetermined (v : Value) : Bool :=
  ((v.toNat &&& 1) ^^^ (v.toNat >>> 1)) != 0

/-- Go `Value.IsContradicted`: the value is Both. -/
def Value.IsContradicted (v : Value) : Bool := v == Value.Both

/-- Modelled from the spec: package attic's `Value` source file is absent from
src (only `value_test.go` and its uses in `belnap.go`/`kleene.go` remain);
`value_test.go` pins `HasInfo` to be false exactly on Unknown, matching the
spec's notion of a value carrying information. -/
def Value.HasInfo (v : Value) : Bool := v != Value.Unknown

end Belnap

/-- The 3-valued scalar `Kleene` of package kleene.  Encoding in Go:
`(known_bit << 1) | value_bit` with Unknown = 0b00, False = 0b10,
True = 0b11. -/
inductive Kleene where
  | Unknown
  | False
  | True
deriving DecidableEq, Fintype, Repr

namespace Kleene

/-- Go's kleene `fromBits` array `[Unknown, Unknown, False, True]`, indexed by
`knownBit<<1 | valueBit`; index 1 (value bit without known bit) is impossible
by invariant and maps to Unknown. -/
def fromBits (n : Nat) : Kleene :=
  match n with
  | 0 => .Unknown
  | 1 => .Unknown
  | 2 => .False
  | _ => .True

/-- Go `Kleene.IsKnown`: the known bit is set. -/
def IsKnown (k : Kleene) : Bool :=
  match k with
  | .Unknown => false
  | _ => true

/-- Go `Kleene.Not`. -/
def Not (k : Kleene) : Kleene :=
  match k with
  | .True => .False
  | .False => .True
  | _ => .Unknown

/-- Go `Kleene.And`. -/
def And (k other : Kleene) : Kleene :=
  if k = .True then other
  else if k = .False ∨ (k = .Unknown ∧ other = .False) then .False
  else .Unknown

/-- Go `Kleene.Or`. -/
def Or (k other : Kleene) : Kleene :=
  if k = .False then other
  else if k = .True ∨ (k = .Unknown ∧ other = .True) then .True
  else .Unknown

/-- Go `Kleene.Implies`: `k.Not().Or(other)`. -/
def Implies (k other : Kleene) : Kleene := (Not k).Or other

end Kleene

/-- The error value `ErrOutOfBounds` shared by the vector packages. -/
inductive VecErr where
  | ErrOutOfBounds
deriving DecidableEq, Repr

instance {ε α : Type} [DecidableEq ε] [DecidableEq α] :
    DecidableEq (Except ε α) := fun a b =>
  match a, b with
  | .error e, .error f =>
    if h : e = f then isTrue (by rw [h])
    else isFalse (by intro hh; cases hh; exact h rfl)
  | .ok x, .ok y =>
    if h : x = y then isTrue (by rw [h])
    else isFalse (by intro hh; cases hh; exact h rfl)
  | .error _, .ok _ => isFalse (by intro h; cases h)
  | .ok _, .error _ => isFalse (by intro h; cases h)

/-- Reading the word pair at index `k` inside the binary vector operations of
package attic: Go guards with `base+1 < len(words)` (with `base = 2k` on the
flat array) and leaves the pair zero otherwise. -/
def pairAt (ws : List (Nat × Nat)) (k : Nat) : Nat × Nat :=
  if 2 * k + 1 < 2 * ws.length then ws.getD k (0, 0) else (0, 0)

/-- The shared `maskTail` body: masks both planes of the word pair at index
`wordsNeeded width - 1` with `tailMask width` (a no-op when no words are
needed). -/
def maskTailWords (width : Nat) (ws : List (Nat × Nat)) : List (Nat × Nat) :=
  if 0 < wordsNeeded width then
    let m := tailMask width
    let p := ws.getD (wordsNeeded width - 1) (0, 0)
    ws.set (wordsNeeded width - 1) (p.1 &&& m, p.2 &&& m)
  else ws

namespace Attic

open Belnap

/-- Packed 4-valued vector of package attic, two planes `(pos, neg)` per
word pair. -/
structure BelnapVec where
  width : Nat
  words : List (Nat × Nat)
deriving DecidableEq, Repr

namespace BelnapVec

/-- Go `NewBelnapVec(width)`: all words zero. -/
def NewBelnapVec (width : Nat) : BelnapVec :=
  ⟨width, List.replicate (wordsNeeded width) (0, 0)⟩

/-- Go `(*BelnapVec).maskTail`. -/
def maskTail (v : BelnapVec) : BelnapVec :=
  ⟨v.width, maskTailWords v.width v.words⟩

/-- Go `newBelnapFilled(width, fill)`: `fillPos = ^0 * (fill&1)`,
`fillNeg = ^0 * (fill>>1)`, all pairs filled, then `maskTail`. -/
def newBelnapFilled (width : Nat) (fill : Value) : BelnapVec :=
  let fillPos := U64 * (fill.toNat &&& 1)
  let fillNeg := U64 * (fill.toNat >>> 1)
  maskTail ⟨width, List.replicate (wordsNeeded width) (fillPos, fillNeg)⟩

/-- Go `BelnapAllTrue(width)`. -/
def BelnapAllTrue (width : Nat) : BelnapVec := newBelnapFilled width .True

/-- Go `BelnapAllFalse(width)`. -/
def BelnapAllFalse (width : Nat) : BelnapVec := newBelnapFilled width .False

/-- Go `(*BelnapVec).Truncate`: no-op unless `newWidth < width`, else keep the
needed word pairs and re-mask the tail. -/
def Truncate (v : BelnapVec) (newWidth : Nat) : BelnapVec :=
  if v.width ≤ newWidth then v
  else maskTail ⟨newWidth, v.words.take (wordsNeeded newWidth)⟩

/-- Go `(*BelnapVec).Resize`: shrink via `Truncate`; grow by or-ing the fill
into the unused high bits of the current last pair, appending filled pairs,
and re-masking when the fill carries information. -/
def Resize (v : BelnapVec) (newWidth : Nat) (fill : Value) : BelnapVec :=
  if newWidth ≤ v.width then v.Truncate newWidth
  else
    let oldWidth := v.width
    let oldNw := wordsNeeded oldWidth
    let newNw := wordsNeeded newWidth
    let fillPos := U64 * (fill.toNat &&& 1)
    let fillNeg := U64 * (fill.toNat >>> 1)
    let ws :=
      if 0 < oldNw ∧ oldWidth &&& bitsMask ≠ 0 then
        let highMask := not64 (tailMask oldWidth)
        let p := v.words.getD (oldNw - 1) (0, 0)
        v.words.set (oldNw - 1)
          (p.1 ||| (fillPos &&& highMask), p.2 ||| (fillNeg &&& highMask))
      else v.words
    let ws := ws ++ List.replicate (newNw - oldNw) (fillPos, fillNeg)
    let r : BelnapVec := ⟨newWidth, ws⟩
    if fill.HasInfo then r.maskTail else r

/-- Go `(*BelnapVec).getUnchecked`: `fromBits[negBit<<1 | posBit]` at word
`i >> 6`, bit `i & 63`. -/
def getUnchecked (v : BelnapVec) (i : Nat) : Value :=
  let p := v.words.getD (i >>> bitsLog2) (0, 0)
  let b := i &&& bitsMask
  fromBits ((((p.2 >>> b) &&& 1) <<< 1) ||| ((p.1 >>> b) &&& 1))

/-- Go `(*BelnapVec).Get`: `ErrOutOfBounds` for `i < 0` or `i >= width`. -/
def Get (v : BelnapVec) (i : Int) : Except VecErr Value :=
  if i < 0 ∨ (v.width : Int) ≤ i then .error .ErrOutOfBounds
  else .ok (v.getUnchecked i.toNat)

/-- Go `(*BelnapVec).setUnchecked`: sets or clears the bit `i & 63` of each
plane of word pair `i >> 6` according to the two bits of `val`. -/
def setUnchecked (v : BelnapVec) (i : Nat) (val : Value) : BelnapVec :=
  let w := i >>> bitsLog2
  let mask := 1 <<< (i &&& bitsMask)
  let p := v.words.getD w (0, 0)
  let p1 := if val.toNat &&& 1 ≠ 0 then p.1 ||| mask else p.1 &&& not64 mask
  let p2 := if val.toNat >>> 1 ≠ 0 then p.2 ||| mask else p.2 &&& not64 mask
  ⟨v.width, v.words.set w (p1, p2)⟩

/-- The in-range body of Go `(*BelnapVec).Set` (after the negative-index
fault): auto-grow by appending zero pairs up to `wordsNeeded (i+1)` and set
`width = i+1` when `i >= width`, then `setUnchecked`. -/
def setNat (v : BelnapVec) (i : Nat) (val : Value) : BelnapVec :=
  let v' : BelnapVec :=
    if v.width ≤ i then
      ⟨i + 1, v.words ++
        List.replicate (wordsNeeded (i + 1) - wordsNeeded v.width) (0, 0)⟩
    else v
  v'.setUnchecked i val

/-- Go `(*BelnapVec).Set`: panics (`none`) on a negative index. -/
def Set (v : BelnapVec) (i : Int) (val : Value) : Option BelnapVec :=
  if i < 0 then none else some (v.setNat i.toNat val)

/-- Go `(*BelnapVec).Not`: word-parallel plane swap, then `maskTail`. -/
def Not (v : BelnapVec) : BelnapVec :=
  maskTail ⟨v.width, v.words.map (fun p => notWord p.1 p.2)⟩

/-- Go `(*BelnapVec).And`: result width `max`, word-parallel `andWord` over
`wordsNeeded max` pairs, missing operand pairs read as zero. -/
def And (v other : BelnapVec) : BelnapVec :=
  let width := max v.width other.width
  ⟨width, (List.range (wordsNeeded width)).map (fun k =>
    let a := pairAt v.words k
    let b := pairAt other.words k
    andWord a.1 a.2 b.1 b.2)⟩

/-- Go `(*BelnapVec).Or`. -/
def Or (v other : BelnapVec) : BelnapVec :=
  let width := max v.width other.width
  ⟨width, (List.range (wordsNeeded width)).map (fun k =>
    let a := pairAt v.words k
    let b := pairAt other.words k
    orWord a.1 a.2 b.1 b.2)⟩

/-- Go `(*BelnapVec).Merge`. -/
def Merge (v other : BelnapVec) : BelnapVec :=
  let width := max v.width other.width
  ⟨width, (List.range (wordsNeeded width)).map (fun k =>
    let a := pairAt v.words k
    let b := pairAt other.words k
    mergeWord a.1 a.2 b.1 b.2)⟩

/-- Go `(*BelnapVec).Implies`: `v.Not().Or(other)`. -/
def Implies (v other : BelnapVec) : BelnapVec := v.Not.Or other

/-- Go `(*BelnapVec).IsConsistent`: no pair has `pos & neg != 0`. -/
def IsConsistent (v : BelnapVec) : Bool :=
  v.words.all (fun p => p.1 &&& p.2 == 0)

/-- Go `(*BelnapVec).IsAllDetermined`: `pos ^ neg` is all-ones on full pairs
and `tailMask width` on the last pair. -/
def IsAllDetermined (v : BelnapVec) : Bool :=
  let nw := wordsNeeded v.width
  if nw = 0 then true
  else
    ((List.range (nw - 1)).all (fun k =>
      let p := v.words.getD k (0, 0)
      p.1 ^^^ p.2 == U64)) &&
    (let p := v.words.getD (nw - 1) (0, 0)
     p.1 ^^^ p.2 == tailMask v.width)

/-- Go `(*BelnapVec).IsAllTrue`. -/
def IsAllTrue (v : BelnapVec) : Bool :=
  let nw := wordsNeeded v.width
  if nw = 0 then true
  else
    ((List.range (nw - 1)).all (fun k =>
      let p := v.words.getD k (0, 0)
      p.1 == U64 && p.2 == 0)) &&
    (let p := v.words.getD (nw - 1) (0, 0)
     p.1 == tailMask v.width && p.2 == 0)

/-- Go `(*BelnapVec).IsAllFalse`. -/
def IsAllFalse (v : BelnapVec) : Bool :=
  let nw := wordsNeeded v.width
  if nw = 0 then true
  else
    ((List.range (nw - 1)).all (fun k =>
      let p := v.words.getD k (0, 0)
      p.1 == 0 && p.2 == U64)) &&
    (let p := v.words.getD (nw - 1) (0, 0)
     p.1 == 0 && p.2 == tailMask v.width)

/-- Go `(*BelnapVec).CountTrue`: popcount of `pos &^ neg` over all pairs. -/
def CountTrue (v : BelnapVec) : Nat :=
  (v.words.map (fun p => OnesCount64 (p.1 &&& not64 p.2))).sum

/-- Go `(*BelnapVec).CountFalse`: popcount of `neg &^ pos`. -/
def CountFalse (v : BelnapVec) : Nat :=
  (v.words.map (fun p => OnesCount64 (p.2 &&& not64 p.1))).sum

/-- Go `(*BelnapVec).CountBoth`: popcount of `pos & neg`. -/
def CountBoth (v : BelnapVec) : Nat :=
  (v.words.map (fun p => OnesCount64 (p.1 &&& p.2))).sum

/-- Go `(*BelnapVec).CountUnknown`: `width - true - false - both` (Go `int`
arithmetic, hence `Int`). -/
def CountUnknown (v : BelnapVec) : Int :=
  (v.width : Int) - v.CountTrue - v.CountFalse - v.CountBoth

end BelnapVec

/-- Packed 3-valued vector of package attic, two planes `(pos, neg)` per word
pair with the invariant `pos & neg == 0`. -/
structure KleeneVec where
  width : Nat
  words : List (Nat × Nat)
deriving DecidableEq, Repr

namespace KleeneVec

/-- Go `NewKleeneVec(width)`. -/
def NewKleeneVec (width : Nat) : KleeneVec :=
  ⟨width, List.replicate (wordsNeeded width) (0, 0)⟩

/-- Go `(*KleeneVec).getUnchecked`: same pos/neg decoding as `BelnapVec`. -/
def getUnchecked (v : KleeneVec) (i : Nat) : Value :=
  let p := v.words.getD (i >>> bitsLog2) (0, 0)
  let b := i &&& bitsMask
  fromBits ((((p.2 >>> b) &&& 1) <<< 1) ||| ((p.1 >>> b) &&& 1))

/-- Go `(*KleeneVec).Get`. -/
def Get (v : KleeneVec) (i : Int) : Except VecErr Value :=
  if i < 0 ∨ (v.width : Int) ≤ i then .error .ErrOutOfBounds
  else .ok (v.getUnchecked i.toNat)

/-- Go `(*KleeneVec).setUnchecked`: `True` sets pos and clears neg, `False`
clears pos and sets neg, the default (`Unknown`) clears both. -/
def setUnchecked (v : KleeneVec) (i : Nat) (val : Value) : KleeneVec :=
  let w := i >>> bitsLog2
  let mask := 1 <<< (i &&& bitsMask)
  let p := v.words.getD w (0, 0)
  let p' :=
    match val with
    | .True => (p.1 ||| mask, p.2 &&& not64 mask)
    | .False => (p.1 &&& not64 mask, p.2 ||| mask)
    | _ => (p.1 &&& not64 mask, p.2 &&& not64 mask)
  ⟨v.width, v.words.set w p'⟩

/-- The in-range body of Go `(*KleeneVec).Set` after its two explicit
panics. -/
def setNat (v : KleeneVec) (i : Nat) (val : Value) : KleeneVec :=
  let v' : KleeneVec :=
    if v.width ≤ i then
      ⟨i + 1, v.words ++
        List.replicate (wordsNeeded (i + 1) - wordsNeeded v.width) (0, 0)⟩
    else v
  v'.setUnchecked i val

/-- Go `(*KleeneVec).Set`: panics (`none`) on a negative index and on
`Both`. -/
def Set (v : KleeneVec) (i : Int) (val : Value) : Option KleeneVec :=
  if i < 0 then none
  else if val = .Both then none
  else some (v.setNat i.toNat val)

/-- Go `(*KleeneVec).IsConsistent` is not present; the consistency check the
conversions rely on reuses the same pair test as `BelnapVec`. -/
def IsConsistent (v : KleeneVec) : Bool :=
  v.words.all (fun p => p.1 &&& p.2 == 0)

end KleeneVec

/-- Modelled from the spec: the attic source file defining
`(*BelnapVec).ToKleeneVec` is absent from src (only the tests in part_016 and
the helpers `wordsRaw` / `kleeneVecFromRawParts` in `kleene.go` remain).  Per
spec section 4.4 the projection succeeds exactly when the vector
`IsConsistent()` and otherwise fails; the two attic vectors share the pos/neg
word layout, so the successful projection transfers width and raw words. -/
def BelnapVec.ToKleeneVec (v : BelnapVec) : Option KleeneVec :=
  if v.IsConsistent then some ⟨v.width, v.words⟩ else none

/-- Modelled from the spec: the attic source file defining
`BelnapVecFromKleeneVec` is absent from src (only its tests remain).  Per spec
section 4.4 it is the total embedding of the 3-valued vector, never producing
`Both`; with the shared pos/neg layout it transfers width and raw words. -/
def BelnapVecFromKleeneVec (k : KleeneVec) : BelnapVec :=
  ⟨k.width, k.words⟩

end Attic

namespace Kleene

/-- Packed 3-valued vector of package kleene, two planes `(known, value)` per
word pair.  Invariant: value bits are a subset of known bits; unused high
bits of the last pair are zero. -/
structure Vec where
  width : Nat
  words : List (Nat × Nat)
deriving DecidableEq, Repr

namespace Vec

/-- Go `NewVec(width)`: all Unknown. -/
def NewVec (width : Nat) : Vec :=
  ⟨width, List.replicate (wordsNeeded width) (0, 0)⟩

/-- Go kleene `(*Vec).maskTail`. -/
def maskTail (v : Vec) : Vec :=
  ⟨v.width, maskTailWords v.width v.words⟩

/-- Go `AllTrue(width)`: every word of both planes all-ones, then
`maskTail`. -/
def AllTrue (width : Nat) : Vec :=
  maskTail ⟨width, List.replicate (wordsNeeded width) (U64, U64)⟩

/-- Go `AllFalse(width)`: known plane all-ones, value plane zero, then
`maskTail`. -/
def AllFalse (width : Nat) : Vec :=
  maskTail ⟨width, List.replicate (wordsNeeded width) (U64, 0)⟩

/-- Go kleene `(*Vec).Truncate`. -/
def Truncate (v : Vec) (newWidth : Nat) : Vec :=
  if v.width ≤ newWidth then v
  else maskTail ⟨newWidth, v.words.take (wordsNeeded newWidth)⟩

/-- Go kleene `(*Vec).Resize`: fill words are `(known, value) = (^0, ^0)` for
True, `(^0, 0)` for False and `(0, 0)` for Unknown. -/
def Resize (v : Vec) (newWidth : Nat) (fill : Kleene) : Vec :=
  if newWidth ≤ v.width then v.Truncate newWidth
  else
    let oldWidth := v.width
    let oldNw := wordsNeeded oldWidth
    let newNw := wordsNeeded newWidth
    let fillKnown := match fill with | .Unknown => 0 | _ => U64
    let fillValue := match fill with | .True => U64 | _ => 0
    let ws :=
      if 0 < oldNw ∧ oldWidth &&& bitsMask ≠ 0 then
        let highMask := not64 (tailMask oldWidth)
        let p := v.words.getD (oldNw - 1) (0, 0)
        v.words.set (oldNw - 1)
          (p.1 ||| (fillKnown &&& highMask), p.2 ||| (fillValue &&& highMask))
      else v.words
    let ws := ws ++ List.replicate (newNw - oldNw) (fillKnown, fillValue)
    let r : Vec := ⟨newWidth, ws⟩
    if fill.IsKnown then r.maskTail else r

/-- Go kleene `(*Vec).getUnchecked`: `fromBits[knownBit<<1 | valueBit]`. -/
def getUnchecked (v : Vec) (i : Nat) : Kleene :=
  let p := v.words.getD (i >>> bitsLog2) (0, 0)
  let b := i &&& bitsMask
  Kleene.fromBits ((((p.1 >>> b) &&& 1) <<< 1) ||| ((p.2 >>> b) &&& 1))

/-- Go kleene `(*Vec).Get`. -/
def Get (v : Vec) (i : Int) : Except VecErr Kleene :=
  if i < 0 ∨ (v.width : Int) ≤ i then .error .ErrOutOfBounds
  else .ok (v.getUnchecked i.toNat)

/-- Go kleene `(*Vec).setUnchecked`: `True` sets both planes, `False` sets
known and clears value, the default (`Unknown`) clears both. -/
def setUnchecked (v : Vec) (i : Nat) (val : Kleene) : Vec :=
  let w := i >>> bitsLog2
  let mask := 1 <<< (i &&& bitsMask)
  let p := v.words.getD w (0, 0)
  let p' :=
    match val with
    | .True => (p.1 ||| mask, p.2 ||| mask)
    | .False => (p.1 ||| mask, p.2 &&& not64 mask)
    | .Unknown => (p.1 &&& not64 mask, p.2 &&& not64 mask)
  ⟨v.width, v.words.set w p'⟩

/-- The non-negative-index body of Go kleene `(*Vec).Set` (auto-grow then
`setUnchecked`). -/
def setNat (v : Vec) (i : Nat) (val : Kleene) : Vec :=
  let v' : Vec :=
    if v.width ≤ i then
      ⟨i + 1, v.words ++
        List.replicate (wordsNeeded (i + 1) - wordsNeeded v.width) (0, 0)⟩
    else v
  v'.setUnchecked i val

/-- Go kleene `(*Vec).Set` has no explicit negative-index guard; a negative
index reaches `setUnchecked`, whose negative slice index is a Go runtime
fault, modelled as `none`. -/
def Set (v : Vec) (i : Int) (val : Kleene) : Option Vec :=
  if i < 0 then none else some (v.setNat i.toNat val)

/-- Go kleene `(*Vec).checkWidth`: panics when the operand widths differ. -/
def checkWidth (v other : Vec) : Bool := v.width == other.width

/-- Go kleene `(*Vec).Not`: `out known = known`, `out value = known &^
value`; no tail re-mask. -/
def Not (v : Vec) : Vec :=
  ⟨v.width, v.words.map (fun p => (p.1, p.1 &&& not64 p.2))⟩

/-- Go kleene `(*Vec).And`: panics (`none`) unless the widths match;
`resultTrue = (ak&av)&(bk&bv)`, `resultFalse = (ak&^av)|(bk&^bv)`, out pair
`(resultTrue|resultFalse, resultTrue)`. -/
def And (v other : Vec) : Option Vec :=
  if v.checkWidth other then
    some ⟨v.width, (List.range v.words.length).map (fun k =>
      let a := v.words.getD k (0, 0)
      let b := other.words.getD k (0, 0)
      let resultTrue := (a.1 &&& a.2) &&& (b.1 &&& b.2)
      let resultFalse := (a.1 &&& not64 a.2) ||| (b.1 &&& not64 b.2)
      (resultTrue ||| resultFalse, resultTrue))⟩
  else none

/-- Go kleene `(*Vec).Or`: `resultTrue = (ak&av)|(bk&bv)`, `resultFalse =
(ak&^av)&(bk&^bv)`. -/
def Or (v other : Vec) : Option Vec :=
  if v.checkWidth other then
    some ⟨v.width, (List.range v.words.length).map (fun k =>
      let a := v.words.getD k (0, 0)
      let b := other.words.getD k (0, 0)
      let resultTrue := (a.1 &&& a.2) ||| (b.1 &&& b.2)
      let resultFalse := (a.1 &&& not64 a.2) &&& (b.1 &&& not64 b.2)
      (resultTrue ||| resultFalse, resultTrue))⟩
  else none

/-- Go kleene `(*Vec).Implies`: `v.Not().Or(other)`. -/
def Implies (v other : Vec) : Option Vec := v.Not.Or other

/-- Go kleene `(*Vec).IsAllKnown`: known plane all-ones on full pairs and
`tailMask width` on the last pair. -/
def IsAllKnown (v : Vec) : Bool :=
  let nw := wordsNeeded v.width
  if nw = 0 then true
  else
    ((List.range (nw - 1)).all (fun k => (v.words.getD k (0, 0)).1 == U64)) &&
    ((v.words.getD (nw - 1) (0, 0)).1 == tailMask v.width)

/-- Go kleene `(*Vec).IsAllTrue`: both planes all-ones on full pairs and
`tailMask width` on the last pair. -/
def IsAllTrue (v : Vec) : Bool :=
  let nw := wordsNeeded v.width
  if nw = 0 then true
  else
    ((List.range (nw - 1)).all (fun k =>
      let p := v.words.getD k (0, 0)
      p.1 == U64 && p.2 == U64)) &&
    (let p := v.words.getD (nw - 1) (0, 0)
     p.1 == tailMask v.width && p.2 == tailMask v.width)

/-- Go kleene `(*Vec).IsAllFalse`: all known and value plane zero. -/
def IsAllFalse (v : Vec) : Bool :=
  v.IsAllKnown && v.words.all (fun p => p.2 == 0)

/-- Go kleene `(*Vec).CountTrue`: popcount of the value plane. -/
def CountTrue (v : Vec) : Nat :=
  (v.words.map (fun p => OnesCount64 p.2)).sum

/-- Go kleene `(*Vec).CountFalse`: popcount of `known &^ value`. -/
def CountFalse (v : Vec) : Nat :=
  (v.words.map (fun p => OnesCount64 (p.1 &&& not64 p.2))).sum

/-- Go kleene `(*Vec).CountUnknown`: `width - CountTrue - CountFalse` in Go
`int` arithmetic. -/
def CountUnknown (v : Vec) : Int :=
  (v.width : Int) - v.CountTrue - v.CountFalse

end Vec

end Kleene

/-! Basic arithmetic and word-level lemmas. -/

theorem bitsMask_eq : bitsMask = 63 := rfl

theorem shiftRight6 (i : Nat) : i >>> 6 = i / 64 := by
  rw [Nat.shiftRight_eq_div_pow]

theorem land63 (i : Nat) : i &&& 63 = i % 64 := by
  have h : (63 : Nat) = 2 ^ 6 - 1 := rfl
  rw [h, Nat.and_pow_two_sub_one_eq_mod]

theorem wordsNeeded_eq (n : Nat) : wordsNeeded n = (n + 63) / 64 := by
  unfold wordsNeeded
  rw [bitsMask_eq, Nat.shiftRight_eq_div_pow]
  norm_num [bitsLog2]

theorem wordsNeeded_mono {m n : Nat} (h : m ≤ n) :
    wordsNeeded m ≤ wordsNeeded n := by
  rw [wordsNeeded_eq, wordsNeeded_eq]
  omega

theorem div64_lt_wordsNeeded {i n : Nat} (h : i < n) :
    i / 64 < wordsNeeded n := by
  rw [wordsNeeded_eq]
  omega

theorem le_mul_wordsNeeded (n : Nat) : n ≤ 64 * wordsNeeded n := by
  rw [wordsNeeded_eq]
  omega

theorem testBit_U64 (b : Nat) : U64.testBit b = decide (b < 64) := by
  unfold U64
  exact Nat.testBit_two_pow_sub_one 64 b

theorem testBit_not64 {b : Nat} (x : Nat) (hb : b < 64) :
    (not64 x).testBit b = !x.testBit b := by
  unfold not64
  rw [Nat.testBit_xor, testBit_U64]
  simp [hb]

theorem testBit_not64_ge {b : Nat} (x : Nat) (hb : 64 ≤ b) :
    (not64 x).testBit b = x.testBit b := by
  unfold not64
  rw [Nat.testBit_xor, testBit_U64]
  simp [Nat.not_lt.mpr hb]

theorem shift_and_one (x b : Nat) :
    (x >>> b) &&& 1 = if x.testBit b then 1 else 0 := by
  have h : (1 : Nat) = 2 ^ 1 - 1 := rfl
  rw [h, Nat.and_pow_two_sub_one_eq_mod]
  rw [Nat.testBit_to_div_mod, Nat.shiftRight_eq_div_pow]
  have h2 : x / 2 ^ b % 2 ^ 1 = x / 2 ^ b % 2 := by norm_num
  rw [h2]
  rcases Nat.mod_two_eq_zero_or_one (x / 2 ^ b) with h3 | h3 <;> simp [h3]

theorem testBit_one_shiftLeft (b0 b : Nat) :
    ((1 : Nat) <<< b0).testBit b = decide (b0 = b) := by
  rw [Nat.shiftLeft_eq, Nat.one_mul, Nat.testBit_two_pow]

theorem testBit_tailMask {b : Nat} (n : Nat) (hb : b < 64) :
    (tailMask n).testBit b =
      (decide (n % 64 = 0) || decide (b < n % 64)) := by
  unfold tailMask
  rw [bitsMask_eq, land63]
  split
  · next h => simp [h, testBit_U64, hb]
  · next h =>
    rw [Nat.shiftLeft_eq, Nat.one_mul, Nat.testBit_two_pow_sub_one]
    simp [h]

theorem tailMask_lt (n : Nat) : tailMask n < 2 ^ 64 := by
  unfold tailMask
  split
  · unfold U64; omega
  · rw [Nat.shiftLeft_eq, Nat.one_mul, bitsMask_eq, land63]
    have : 2 ^ (n % 64) ≤ 2 ^ 64 := Nat.pow_le_pow_right (by omega) (by omega)
    omega

/-! List `getD` lemmas specialised to word-pair lists. -/

theorem getD_replicate {α : Type} (d a : α) (n k : Nat) :
    (List.replicate n a).getD k d = if k < n then a else d := by
  rw [List.getD_eq_getElem?_getD, List.getElem?_replicate]
  split <;> rfl

theorem getD_set {α : Type} (d p : α) (ws : List α) (j k : Nat) :
    (ws.set j p).getD k d =
      if j = k ∧ j < ws.length then p else ws.getD k d := by
  by_cases h1 : j = k
  · subst h1
    by_cases h2 : j < ws.length
    · simp [List.getD_eq_getElem?_getD, List.getElem?_set, h2]
    · rw [List.getD_eq_getElem?_getD, List.getD_eq_getElem?_getD,
        List.getElem?_set]
      simp [h2, List.getElem?_eq_none (Nat.le_of_not_lt h2)]
  · rw [List.getD_eq_getElem?_getD, List.getD_eq_getElem?_getD,
      List.getElem?_set]
    simp [h1]

theorem getD_range_map {α : Type} (d : α) (f : Nat → α) (n k : Nat) :
    ((List.range n).map f).getD k d = if k < n then f k else d := by
  rw [List.getD_eq_getElem?_getD, List.getElem?_map]
  split
  · next h => rw [List.getElem?_range h]; rfl
  · next h =>
    rw [List.getElem?_eq_none]
    · rfl
    · simpa using Nat.le_of_not_lt h

theorem getD_append {α : Type} (d : α) (ws ws2 : List α) (k : Nat) :
    (ws ++ ws2).getD k d =
      if k < ws.length then ws.getD k d else ws2.getD (k - ws.length) d := by
  rw [List.getD_eq_getElem?_getD, List.getD_eq_getElem?_getD,
    List.getD_eq_getElem?_getD, List.getElem?_append]
  split <;> rfl

theorem getD_take {α : Type} (d : α) (ws : List α) (n k : Nat) :
    (ws.take n).getD k d = if k < n then ws.getD k d else d := by
  rw [List.getD_eq_getElem?_getD, List.getD_eq_getElem?_getD,
    List.getElem?_take]
  split <;> rfl

theorem getD_map_fix {α : Type} (d : α) (f : α → α) (hf : f d = d)
    (ws : List α) (k : Nat) :
    (ws.map f).getD k d = f (ws.getD k d) := by
  rw [List.getD_eq_getElem?_getD, List.getD_eq_getElem?_getD,
    List.getElem?_map]
  rcases h : ws[k]? with _ | a
  · simpa using hf.symm
  · rfl

theorem pairAt_eq (ws : List (Nat × Nat)) (k : Nat) :
    pairAt ws k = ws.getD k (0, 0) := by
  unfold pairAt
  split
  · rfl
  · next h =>
    rw [List.getD_eq_getElem?_getD, List.getElem?_eq_none (by omega)]
    rfl

theorem bitsLog2_eq : bitsLog2 = 6 := rfl

theorem getD_of_le {α : Type} (d : α) (ws : List α) {k : Nat}
    (h : ws.length ≤ k) : ws.getD k d = d := by
  rw [List.getD_eq_getElem?_getD, List.getElem?_eq_none h]
  rfl

/-- Bit `i % 64` of the plane selected by `sel` in the word pair `i / 64`:
the value of packed position `i` on one plane. -/
def planeBit (sel : Nat × Nat → Nat) (ws : List (Nat × Nat)) (i : Nat) :
    Bool :=
  (sel (ws.getD (i / 64) (0, 0))).testBit (i % 64)

/-- Decoder of a pos/neg bit pair into a 4-valued `Value`, matching
`fromBits[negBit<<1 | posBit]`. -/
def fromBool2 (pos neg : Bool) : Belnap.Value :=
  match neg, pos with
  | false, false => .Unknown
  | false, true => .True
  | true, false => .False
  | true, true => .Both

/-- Decoder of a known/value bit pair into a `Kleene`, matching the kleene
package's `fromBits[knownBit<<1 | valueBit]`. -/
def kleeneFromBool2 (known value : Bool) : Kleene :=
  match known, value with
  | false, _ => .Unknown
  | true, false => .False
  | true, true => .True

theorem testBit_orBit (x b0 b : Nat) :
    (x ||| (1 <<< b0)).testBit b = (x.testBit b || decide (b0 = b)) := by
  rw [Nat.testBit_lor, testBit_one_shiftLeft]

theorem testBit_clearBit (x b0 : Nat) {b : Nat} (hb : b < 64) :
    (x &&& not64 (1 <<< b0)).testBit b = (x.testBit b && !decide (b0 = b)) := by
  rw [Nat.testBit_land, testBit_not64 _ hb, testBit_one_shiftLeft]

theorem planeBit_replicate (sel : Nat × Nat → Nat) (hz : sel (0, 0) = 0)
    (n : Nat) (a : Nat × Nat) (i : Nat) :
    planeBit sel (List.replicate n a) i =
      (decide (i / 64 < n) && (sel a).testBit (i % 64)) := by
  unfold planeBit
  have hz0 : sel 0 = 0 := hz
  rw [getD_replicate]
  split
  · next h => simp [h]
  · next h => simp [h, hz, hz0]

theorem planeBit_set (sel : Nat × Nat → Nat) (ws : List (Nat × Nat))
    (j : Nat) (p : Nat × Nat) (i : Nat) :
    planeBit sel (ws.set j p) i =
      if j = i / 64 ∧ j < ws.length then (sel p).testBit (i % 64)
      else planeBit sel ws i := by
  unfold planeBit
  rw [getD_set]
  split
  · rfl
  · rfl

theorem planeBit_append (sel : Nat × Nat → Nat) (ws ws2 : List (Nat × Nat))
    (i : Nat) :
    planeBit sel (ws ++ ws2) i =
      if i / 64 < ws.length then planeBit sel ws i
      else (sel (ws2.getD (i / 64 - ws.length) (0, 0))).testBit (i % 64) := by
  unfold planeBit
  rw [getD_append]
  split
  · rfl
  · rfl

theorem planeBit_append_zeros (sel : Nat × Nat → Nat) (hz : sel (0, 0) = 0)
    (ws : List (Nat × Nat)) (m i : Nat) :
    planeBit sel (ws ++ List.replicate m (0, 0)) i = planeBit sel ws i := by
  rw [planeBit_append]
  split
  · rfl
  · next h =>
    rw [getD_replicate]
    unfold planeBit
    rw [getD_of_le _ _ (Nat.le_of_not_lt h)]
    split <;> simp [hz]

theorem planeBit_range_map (sel : Nat × Nat → Nat) (hz : sel (0, 0) = 0)
    (f : Nat → Nat × Nat) (n i : Nat) :
    planeBit sel ((List.range n).map f) i =
      if i / 64 < n then (sel (f (i / 64))).testBit (i % 64) else false := by
  unfold planeBit
  have hz0 : sel 0 = 0 := hz
  rw [getD_range_map]
  split
  · rfl
  · simp [hz, hz0]

theorem planeBit_map_fix (sel : Nat × Nat → Nat) (f : Nat × Nat → Nat × Nat)
    (hf : f (0, 0) = (0, 0)) (ws : List (Nat × Nat)) (i : Nat) :
    planeBit sel (ws.map f) i =
      (sel (f (ws.getD (i / 64) (0, 0)))).testBit (i % 64) := by
  unfold planeBit
  rw [getD_map_fix _ _ hf]

theorem planeBit_of_le (sel : Nat × Nat → Nat) (hz : sel (0, 0) = 0)
    (ws : List (Nat × Nat)) {i : Nat} (h : ws.length ≤ i / 64) :
    planeBit sel ws i = false := by
  have hz0 : sel 0 = 0 := hz
  unfold planeBit
  rw [getD_of_le _ _ h]
  simp [hz, hz0]

theorem planeBit_maskTailWords_lt (sel : Nat × Nat → Nat)
    (hsel : ∀ p : Nat × Nat, ∀ m, sel (p.1 &&& m, p.2 &&& m) = sel p &&& m)
    (width : Nat) (ws : List (Nat × Nat)) {i : Nat} (h : i < width) :
    planeBit sel (maskTailWords width ws) i = planeBit sel ws i := by
  unfold maskTailWords
  split
  · next hnw =>
    rw [planeBit_set]
    split
    · next hcase =>
      have hnweq : wordsNeeded width = (width + 63) / 64 := wordsNeeded_eq width
      have hmod : width % 64 = 0 ∨ i % 64 < width % 64 := by omega
      rw [hsel, Nat.testBit_land,
        testBit_tailMask width (Nat.mod_lt _ (by omega))]
      unfold planeBit
      rcases hcase with ⟨hw, _⟩
      rw [← hw]
      rcases hmod with hm | hm <;> simp [hm]
    · rfl
  · rfl

theorem planeBit_maskTailWords_ge (sel : Nat × Nat → Nat)
    (hsel : ∀ p : Nat × Nat, ∀ m, sel (p.1 &&& m, p.2 &&& m) = sel p &&& m)
    (hz : sel (0, 0) = 0) (width : Nat) (ws : List (Nat × Nat))
    (hlen : ws.length ≤ wordsNeeded width) {i : Nat} (h : width ≤ i) :
    planeBit sel (maskTailWords width ws) i = false := by
  have hnweq : wordsNeeded width = (width + 63) / 64 := wordsNeeded_eq width
  unfold maskTailWords
  split
  · next hnw =>
    rw [planeBit_set]
    split
    · next hcase =>
      have hmod : ¬(width % 64 = 0 ∨ i % 64 < width % 64) := by
        rcases hcase with ⟨hw, _⟩
        omega
      rw [hsel, Nat.testBit_land,
        testBit_tailMask width (Nat.mod_lt _ (by omega))]
      push_neg at hmod
      simp [hmod.1, Nat.not_lt.mpr hmod.2]
    · next hcase =>
      have hge : ws.length ≤ i / 64 := by
        rw [Decidable.not_and_iff_or_not] at hcase
        rcases hcase with hc | hc
        · omega
        · omega
      exact planeBit_of_le sel hz ws hge
  · next hnw =>
    have : ws.length ≤ i / 64 := by omega
    exact planeBit_of_le sel hz ws this

theorem Attic.BelnapVec.getUnchecked_view (v : BelnapVec) (i : Nat) :
    v.getUnchecked i =
      fromBool2 (planeBit Prod.fst v.words i) (planeBit Prod.snd v.words i) := by
  simp only [getUnchecked, planeBit, bitsLog2_eq, bitsMask_eq, shiftRight6,
    land63, shift_and_one]
  rcases h1 : ((v.words.getD (i / 64) (0, 0)).1).testBit (i % 64) <;>
    rcases h2 : ((v.words.getD (i / 64) (0, 0)).2).testBit (i % 64) <;>
      simp [h1, h2, fromBool2, Belnap.fromBits]

theorem Attic.KleeneVec.kleeneVec_getUnchecked_view (v : KleeneVec) (i : Nat) :
    v.getUnchecked i =
      fromBool2 (planeBit Prod.fst v.words i) (planeBit Prod.snd v.words i) := by
  simp only [getUnchecked, planeBit, bitsLog2_eq, bitsMask_eq, shiftRight6,
    land63, shift_and_one]
  rcases h1 : ((v.words.getD (i / 64) (0, 0)).1).testBit (i % 64) <;>
    rcases h2 : ((v.words.getD (i / 64) (0, 0)).2).testBit (i % 64) <;>
      simp [h1, h2, fromBool2, Belnap.fromBits]

theorem Kleene.Vec.kv_getUnchecked_view (v : Vec) (i : Nat) :
    v.getUnchecked i =
      kleeneFromBool2 (planeBit Prod.fst v.words i)
        (planeBit Prod.snd v.words i) := by
  simp only [getUnchecked, planeBit, bitsLog2_eq, bitsMask_eq, shiftRight6,
    land63, shift_and_one]
  rcases h1 : ((v.words.getD (i / 64) (0, 0)).1).testBit (i % 64) <;>
    rcases h2 : ((v.words.getD (i / 64) (0, 0)).2).testBit (i % 64) <;>
      simp [h1, h2, kleeneFromBool2, Kleene.fromBits]

/-! Scalar correspondence of the word-parallel bit formulas. -/

theorem fromBool2_and : ∀ p1 n1 p2 n2 : Bool,
    fromBool2 (p1 && p2) (n1 || n2) =
      (fromBool2 p1 n1).And (fromBool2 p2 n2) := by decide

theorem fromBool2_or : ∀ p1 n1 p2 n2 : Bool,
    fromBool2 (p1 || p2) (n1 && n2) =
      (fromBool2 p1 n1).Or (fromBool2 p2 n2) := by decide

theorem fromBool2_merge : ∀ p1 n1 p2 n2 : Bool,
    fromBool2 (p1 || p2) (n1 || n2) =
      (fromBool2 p1 n1).Merge (fromBool2 p2 n2) := by decide

theorem fromBool2_not : ∀ p n : Bool,
    fromBool2 n p = (fromBool2 p n).Not := by decide

theorem fromBool2_unknown_iff : ∀ p n : Bool,
    fromBool2 p n = .Unknown ↔ (p = false ∧ n = false) := by decide

theorem kleeneFromBool2_and : ∀ k1 v1 k2 v2 : Bool,
    kleeneFromBool2 ((k1 && v1 && (k2 && v2)) ||
        ((k1 && !v1) || (k2 && !v2))) (k1 && v1 && (k2 && v2)) =
      (kleeneFromBool2 k1 v1).And (kleeneFromBool2 k2 v2) := by decide

theorem kleeneFromBool2_or : ∀ k1 v1 k2 v2 : Bool,
    kleeneFromBool2 ((k1 && v1 || k2 && v2) ||
        ((k1 && !v1) && (k2 && !v2))) (k1 && v1 || k2 && v2) =
      (kleeneFromBool2 k1 v1).Or (kleeneFromBool2 k2 v2) := by decide

theorem kleeneFromBool2_not : ∀ k v : Bool,
    kleeneFromBool2 k (k && !v) = (kleeneFromBool2 k v).Not := by decide

theorem maskTailWords_length (width : Nat) (ws : List (Nat × Nat)) :
    (maskTailWords width ws).length = ws.length := by
  unfold maskTailWords
  split
  · exact List.length_set ws _ _
  · rfl

/-- Word-parallel binary loops: the packed bit at `i` of the output word list
is the boolean operator applied to the packed bits of the operands, provided
both operand lists fit in the `nw` computed words. -/
theorem planeBit_binop (sel : Nat × Nat → Nat) (hz : sel (0, 0) = 0)
    (wop : Nat × Nat → Nat × Nat → Nat × Nat) (bop : Bool → Bool → Bool)
    (hcompat : ∀ a b : Nat × Nat, ∀ t,
      (sel (wop a b)).testBit t = bop ((sel a).testBit t) ((sel b).testBit t))
    (hb0 : bop false false = false)
    (va ob : List (Nat × Nat)) (nw : Nat)
    (hA : va.length ≤ nw) (hB : ob.length ≤ nw) (i : Nat) :
    planeBit sel ((List.range nw).map
        (fun k => wop (va.getD k (0, 0)) (ob.getD k (0, 0)))) i =
      bop (planeBit sel va i) (planeBit sel ob i) := by
  rw [planeBit_range_map sel hz]
  split
  · next h => rw [hcompat]; rfl
  · next h =>
    rw [planeBit_of_le sel hz va (by omega), planeBit_of_le sel hz ob (by omega),
      hb0]

namespace Attic.BelnapVec

/-- Representation invariant of `attic.BelnapVec`: the word list has exactly
`wordsNeeded width` pairs and every packed bit at a position at or beyond
`width` is zero on both planes. -/
def Wf (v : BelnapVec) : Prop :=
  v.words.length = wordsNeeded v.width ∧
  ∀ i, v.width ≤ i →
    planeBit Prod.fst v.words i = false ∧ planeBit Prod.snd v.words i = false

theorem wf_new (w : Nat) : (NewBelnapVec w).Wf := by
  constructor
  · simp [NewBelnapVec]
  · intro i hi
    unfold NewBelnapVec
    constructor <;> rw [planeBit_replicate _ rfl] <;> simp

theorem wf_filled (w : Nat) (fill : Belnap.Value) :
    (newBelnapFilled w fill).Wf := by
  unfold newBelnapFilled maskTail
  constructor
  · simp [maskTailWords_length]
  · intro i hi
    constructor <;>
      exact planeBit_maskTailWords_ge _ (fun p m => rfl) rfl w _
        (by simp) hi

theorem wf_truncate {v : BelnapVec} (hwf : v.Wf) (newWidth : Nat) :
    (v.Truncate newWidth).Wf := by
  unfold Truncate
  split
  · exact hwf
  · next h =>
    unfold maskTail
    constructor
    · simp only [maskTailWords_length, List.length_take, hwf.1]
      have := wordsNeeded_mono (Nat.le_of_lt (Nat.lt_of_not_le h))
      omega
    · intro i hi
      constructor <;>
        exact planeBit_maskTailWords_ge _ (fun p m => rfl) rfl newWidth _
          (by simp) hi

theorem truncate_planeBit_lt {v : BelnapVec} {newWidth i : Nat}
    (hnw : newWidth < v.width) (hi : i < newWidth) (sel : Nat × Nat → Nat)
    (hsel : ∀ p : Nat × Nat, ∀ m, sel (p.1 &&& m, p.2 &&& m) = sel p &&& m)
    (hz : sel (0, 0) = 0) :
    planeBit sel (v.Truncate newWidth).words i = planeBit sel v.words i := by
  unfold Truncate
  rw [if_neg (by omega)]
  unfold maskTail
  show planeBit sel (maskTailWords newWidth _) i = _
  rw [planeBit_maskTailWords_lt sel hsel newWidth _ hi]
  unfold planeBit
  rw [getD_take]
  rw [if_pos (div64_lt_wordsNeeded hi)]

end Attic.BelnapVec

theorem testBit_condSet (x : Nat) (c : Prop) [Decidable c] (b0 : Nat)
    {b : Nat} (hb : b < 64) :
    (if c then x ||| (1 <<< b0) else x &&& not64 (1 <<< b0)).testBit b =
      if b0 = b then decide c else x.testBit b := by
  split
  · next hc => rw [testBit_orBit]; by_cases hbb : b0 = b <;> simp [hbb, hc]
  · next hc =>
    rw [testBit_clearBit _ _ hb]
    by_cases hbb : b0 = b <;> simp [hbb, hc]

theorem fromBool2_decide_bits : ∀ val : Belnap.Value,
    fromBool2 (decide (val.toNat &&& 1 ≠ 0)) (decide (val.toNat >>> 1 ≠ 0)) =
      val := by decide

namespace Attic.BelnapVec

theorem setUnchecked_planeBit_fst (v : BelnapVec) (i0 : Nat)
    (val : Belnap.Value) (j : Nat) :
    planeBit Prod.fst (v.setUnchecked i0 val).words j =
      if i0 / 64 = j / 64 ∧ i0 / 64 < v.words.length ∧ i0 % 64 = j % 64
      then decide (val.toNat &&& 1 ≠ 0)
      else planeBit Prod.fst v.words j := by
  simp only [setUnchecked, bitsLog2_eq, bitsMask_eq, shiftRight6, land63]
  rw [planeBit_set]
  split
  · next hhit =>
    show (if val.toNat &&& 1 ≠ 0 then _ ||| (1 <<< (i0 % 64))
      else _ &&& not64 (1 <<< (i0 % 64))).testBit (j % 64) = _
    rw [testBit_condSet _ _ _ (by omega)]
    rcases hhit with ⟨hw, hl⟩
    by_cases hbb : i0 % 64 = j % 64
    · rw [if_pos hbb, if_pos ⟨hw, hl, hbb⟩]
    · rw [if_neg hbb, if_neg (by tauto)]
      unfold planeBit
      rw [hw]
  · next hmiss =>
    rw [if_neg (by tauto)]

theorem setUnchecked_planeBit_snd (v : BelnapVec) (i0 : Nat)
    (val : Belnap.Value) (j : Nat) :
    planeBit Prod.snd (v.setUnchecked i0 val).words j =
      if i0 / 64 = j / 64 ∧ i0 / 64 < v.words.length ∧ i0 % 64 = j % 64
      then decide (val.toNat >>> 1 ≠ 0)
      else planeBit Prod.snd v.words j := by
  simp only [setUnchecked, bitsLog2_eq, bitsMask_eq, shiftRight6, land63]
  rw [planeBit_set]
  split
  · next hhit =>
    show (if val.toNat >>> 1 ≠ 0 then _ ||| (1 <<< (i0 % 64))
      else _ &&& not64 (1 <<< (i0 % 64))).testBit (j % 64) = _
    rw [testBit_condSet _ _ _ (by omega)]
    rcases hhit with ⟨hw, hl⟩
    by_cases hbb : i0 % 64 = j % 64
    · rw [if_pos hbb, if_pos ⟨hw, hl, hbb⟩]
    · rw [if_neg hbb, if_neg (by tauto)]
      unfold planeBit
      rw [hw]
  · next hmiss =>
    rw [if_neg (by tauto)]

/-- The word list and width of the auto-grow step of `Set`. -/
theorem setNat_eq (v : BelnapVec) (i0 : Nat) (val : Belnap.Value) :
    v.setNat i0 val =
      (if v.width ≤ i0 then
        (⟨i0 + 1, v.words ++ List.replicate
          (wordsNeeded (i0 + 1) - wordsNeeded v.width) (0, 0)⟩ : BelnapVec)
      else v).setUnchecked i0 val := rfl

theorem setNat_width {v : BelnapVec} {i0 : Nat} (h : v.width ≤ i0)
    (val : Belnap.Value) : (v.setNat i0 val).width = i0 + 1 := by
  rw [setNat_eq, if_pos h]
  rfl

theorem setNat_width_lt {v : BelnapVec} {i0 : Nat} (h : i0 < v.width)
    (val : Belnap.Value) : (v.setNat i0 val).width = v.width := by
  rw [setNat_eq, if_neg (by omega)]
  rfl

theorem setNat_planeBit_fst {v : BelnapVec} (hwf : v.Wf) (i0 : Nat)
    (val : Belnap.Value) (j : Nat) :
    planeBit Prod.fst (v.setNat i0 val).words j =
      if i0 = j then decide (val.toNat &&& 1 ≠ 0)
      else planeBit Prod.fst v.words j := by
  rw [setNat_eq]
  split
  · next hgrow =>
    rw [setUnchecked_planeBit_fst]
    show (if i0 / 64 = j / 64 ∧
        i0 / 64 < (v.words ++ List.replicate _ (0, 0)).length ∧
        i0 % 64 = j % 64 then _ else planeBit Prod.fst (v.words ++ _) j) = _
    have hlen : (v.words ++ List.replicate
        (wordsNeeded (i0 + 1) - wordsNeeded v.width) (0, 0)).length =
        wordsNeeded (i0 + 1) := by
      have := wordsNeeded_mono (show v.width ≤ i0 + 1 by omega)
      simp [hwf.1]
      omega
    have hi0 : i0 / 64 < wordsNeeded (i0 + 1) :=
      div64_lt_wordsNeeded (by omega)
    rw [planeBit_append_zeros _ rfl]
    split
    · next hc =>
      rw [if_pos (by omega)]
    · next hc =>
      rw [hlen] at hc
      rw [if_neg (by omega)]
  · next hin =>
    rw [setUnchecked_planeBit_fst]
    have hi0 : i0 / 64 < v.words.length := by
      rw [hwf.1]
      exact div64_lt_wordsNeeded (by omega)
    split
    · next hc => rw [if_pos (by omega)]
    · next hc => rw [if_neg (by omega)]

theorem setNat_planeBit_snd {v : BelnapVec} (hwf : v.Wf) (i0 : Nat)
    (val : Belnap.Value) (j : Nat) :
    planeBit Prod.snd (v.setNat i0 val).words j =
      if i0 = j then decide (val.toNat >>> 1 ≠ 0)
      else planeBit Prod.snd v.words j := by
  rw [setNat_eq]
  split
  · next hgrow =>
    rw [setUnchecked_planeBit_snd]
    show (if i0 / 64 = j / 64 ∧
        i0 / 64 < (v.words ++ List.replicate _ (0, 0)).length ∧
        i0 % 64 = j % 64 then _ else planeBit Prod.snd (v.words ++ _) j) = _
    have hlen : (v.words ++ List.replicate
        (wordsNeeded (i0 + 1) - wordsNeeded v.width) (0, 0)).length =
        wordsNeeded (i0 + 1) := by
      have := wordsNeeded_mono (show v.width ≤ i0 + 1 by omega)
      simp [hwf.1]
      omega
    have hi0 : i0 / 64 < wordsNeeded (i0 + 1) :=
      div64_lt_wordsNeeded (by omega)
    rw [planeBit_append_zeros _ rfl]
    split
    · next hc =>
      rw [if_pos (by omega)]
    · next hc =>
      rw [hlen] at hc
      rw [if_neg (by omega)]
  · next hin =>
    rw [setUnchecked_planeBit_snd]
    have hi0 : i0 / 64 < v.words.length := by
      rw [hwf.1]
      exact div64_lt_wordsNeeded (by omega)
    split
    · next hc => rw [if_pos (by omega)]
    · next hc => rw [if_neg (by omega)]

theorem setNat_length {v : BelnapVec} (hwf : v.Wf) (i0 : Nat)
    (val : Belnap.Value) :
    (v.setNat i0 val).words.length = wordsNeeded (v.setNat i0 val).width := by
  rw [setNat_eq]
  split
  · next hgrow =>
    show ((v.words ++ _).set _ _).length = wordsNeeded (i0 + 1)
    have := wordsNeeded_mono (show v.width ≤ i0 + 1 by omega)
    simp [hwf.1]
    omega
  · next hin =>
    show (v.words.set _ _).length = wordsNeeded v.width
    simp [hwf.1]

theorem wf_setNat {v : BelnapVec} (hwf : v.Wf) (i0 : Nat)
    (val : Belnap.Value) : (v.setNat i0 val).Wf := by
  refine ⟨setNat_length hwf i0 val, ?_⟩
  intro i hi
  have hw : (v.setNat i0 val).width = if v.width ≤ i0 then i0 + 1
      else v.width := by
    split
    · next h => exact setNat_width h val
    · next h => exact setNat_width_lt (by omega) val
  rw [setNat_planeBit_fst hwf, setNat_planeBit_snd hwf]
  have hne : i0 ≠ i := by
    split at hw <;> omega
  have hge : v.width ≤ i := by
    split at hw <;> omega
  rw [if_neg hne, if_neg hne]
  exact hwf.2 i hge

end Attic.BelnapVec

/-- The pos-plane fill word of `Resize` in package attic. -/
def belnapFillPos (fill : Belnap.Value) : Nat := U64 * (fill.toNat &&& 1)

/-- The neg-plane fill word of `Resize` in package attic. -/
def belnapFillNeg (fill : Belnap.Value) : Nat := U64 * (fill.toNat >>> 1)

theorem hasInfo_false_iff : ∀ fill : Belnap.Value,
    fill.HasInfo = false ↔ fill = .Unknown := by decide

theorem belnapFillPos_unknown : belnapFillPos .Unknown = 0 := by
  unfold belnapFillPos
  norm_num [Belnap.Value.toNat]

theorem belnapFillNeg_unknown : belnapFillNeg .Unknown = 0 := by
  unfold belnapFillNeg
  norm_num [Belnap.Value.toNat]

theorem belnapFill_decode (fill : Belnap.Value) {b : Nat} (hb : b < 64) :
    fromBool2 ((belnapFillPos fill).testBit b)
      ((belnapFillNeg fill).testBit b) = fill := by
  cases fill <;>
    simp [belnapFillPos, belnapFillNeg, Belnap.Value.toNat, testBit_U64, hb,
      fromBool2]

namespace Attic.BelnapVec

/-- The word list built by the growing branch of `Resize`. -/
def resizeGrowWords (v : BelnapVec) (newWidth : Nat) (fill : Belnap.Value) :
    List (Nat × Nat) :=
  (if 0 < wordsNeeded v.width ∧ v.width &&& bitsMask ≠ 0 then
    v.words.set (wordsNeeded v.width - 1)
      ((v.words.getD (wordsNeeded v.width - 1) (0, 0)).1 |||
        (belnapFillPos fill &&& not64 (tailMask v.width)),
       (v.words.getD (wordsNeeded v.width - 1) (0, 0)).2 |||
        (belnapFillNeg fill &&& not64 (tailMask v.width)))
  else v.words) ++
  List.replicate (wordsNeeded newWidth - wordsNeeded v.width)
    (belnapFillPos fill, belnapFillNeg fill)

theorem resize_grow_eq (v : BelnapVec) (newWidth : Nat)
    (fill : Belnap.Value) (h : ¬ newWidth ≤ v.width) :
    v.Resize newWidth fill =
      if fill.HasInfo then
        BelnapVec.maskTail ⟨newWidth, resizeGrowWords v newWidth fill⟩
      else ⟨newWidth, resizeGrowWords v newWidth fill⟩ := by
  unfold Resize resizeGrowWords belnapFillPos belnapFillNeg
  rw [if_neg h]

theorem resizeGrowWords_length {v : BelnapVec} (hwf : v.Wf) {newWidth : Nat}
    (h : v.width < newWidth) (fill : Belnap.Value) :
    (resizeGrowWords v newWidth fill).length = wordsNeeded newWidth := by
  unfold resizeGrowWords
  have hmono := wordsNeeded_mono (Nat.le_of_lt h)
  split <;> simp [hwf.1] <;> omega

theorem resizeGrowWords_planeBit_fst {v : BelnapVec} (hwf : v.Wf)
    {newWidth : Nat} (h : v.width < newWidth) (fill : Belnap.Value)
    (j : Nat) :
    planeBit Prod.fst (resizeGrowWords v newWidth fill) j =
      if j < v.width then planeBit Prod.fst v.words j
      else if j / 64 < wordsNeeded newWidth then
        (belnapFillPos fill).testBit (j % 64)
      else false := by
  have hweq : wordsNeeded v.width = (v.width + 63) / 64 := wordsNeeded_eq _
  have hweq2 : wordsNeeded newWidth = (newWidth + 63) / 64 := wordsNeeded_eq _
  unfold resizeGrowWords
  by_cases hstep : 0 < wordsNeeded v.width ∧ v.width &&& bitsMask ≠ 0
  · rcases hstep with ⟨hpos, hmod⟩
    rw [bitsMask_eq, land63] at hmod
    rw [if_pos ⟨hpos, by rw [bitsMask_eq, land63]; exact hmod⟩,
      planeBit_append, List.length_set, hwf.1]
    split
    · next hw1 =>
      rw [planeBit_set]
      split
      · next hhit =>
        rcases hhit with ⟨hword, _⟩
        show ((v.words.getD (wordsNeeded v.width - 1) (0, 0)).1 |||
          (belnapFillPos fill &&& not64 (tailMask v.width))).testBit
            (j % 64) = _
        rw [Nat.testBit_lor, Nat.testBit_land,
          testBit_not64 _ (by omega), testBit_tailMask _ (by omega)]
        by_cases hj : j < v.width
        · have hbm : v.width % 64 = 0 ∨ j % 64 < v.width % 64 := by omega
          rw [if_pos hj]
          unfold planeBit
          rw [← hword]
          rcases hbm with hm | hm <;> simp [hm]
        · have hb1 : ¬(v.width % 64 = 0) := by omega
          have hb2 : ¬(j % 64 < v.width % 64) := by omega
          rw [if_neg hj, if_pos (by omega)]
          have hfalse := (hwf.2 j (by omega)).1
          unfold planeBit at hfalse
          rw [hword, hfalse]
          simp [hb1, hb2]
      · next hmiss =>
        have hj : j < v.width := by
          rw [Decidable.not_and_iff_or_not] at hmiss
          rcases hmiss with hc | hc
          · omega
          · rw [hwf.1] at hc
            omega
        rw [if_pos hj]
    · next hw1 =>
      have hj : ¬ j < v.width := by
        have := le_mul_wordsNeeded v.width
        omega
      rw [if_neg hj, getD_replicate]
      split
      · next hidx =>
        rw [if_pos (by omega)]
      · next hidx =>
        rw [if_neg (by omega)]
        simp
  · rw [if_neg hstep, planeBit_append, hwf.1]
    rw [Decidable.not_and_iff_or_not, bitsMask_eq, land63] at hstep
    split
    · next hw1 =>
      have hj : j < v.width := by
        rcases hstep with hc | hc
        · omega
        · omega
      rw [if_pos hj]
    · next hw1 =>
      have hj : ¬ j < v.width := by
        have := le_mul_wordsNeeded v.width
        omega
      rw [if_neg hj, getD_replicate]
      split
      · next hidx =>
        rw [if_pos (by omega)]
      · next hidx =>
        rw [if_neg (by omega)]
        simp

theorem resizeGrowWords_planeBit_snd {v : BelnapVec} (hwf : v.Wf)
    {newWidth : Nat} (h : v.width < newWidth) (fill : Belnap.Value)
    (j : Nat) :
    planeBit Prod.snd (resizeGrowWords v newWidth fill) j =
      if j < v.width then planeBit Prod.snd v.words j
      else if j / 64 < wordsNeeded newWidth then
        (belnapFillNeg fill).testBit (j % 64)
      else false := by
  have hweq : wordsNeeded v.width = (v.width + 63) / 64 := wordsNeeded_eq _
  have hweq2 : wordsNeeded newWidth = (newWidth + 63) / 64 := wordsNeeded_eq _
  unfold resizeGrowWords
  by_cases hstep : 0 < wordsNeeded v.width ∧ v.width &&& bitsMask ≠ 0
  · rcases hstep with ⟨hpos, hmod⟩
    rw [bitsMask_eq, land63] at hmod
    rw [if_pos ⟨hpos, by rw [bitsMask_eq, land63]; exact hmod⟩,
      planeBit_append, List.length_set, hwf.1]
    split
    · next hw1 =>
      rw [planeBit_set]
      split
      · next hhit =>
        rcases hhit with ⟨hword, _⟩
        show ((v.words.getD (wordsNeeded v.width - 1) (0, 0)).2 |||
          (belnapFillNeg fill &&& not64 (tailMask v.width))).testBit
            (j % 64) = _
        rw [Nat.testBit_lor, Nat.testBit_land,
          testBit_not64 _ (by omega), testBit_tailMask _ (by omega)]
        by_cases hj : j < v.width
        · have hbm : v.width % 64 = 0 ∨ j % 64 < v.width % 64 := by omega
          rw [if_pos hj]
          unfold planeBit
          rw [← hword]
          rcases hbm with hm | hm <;> simp [hm]
        · have hb1 : ¬(v.width % 64 = 0) := by omega
          have hb2 : ¬(j % 64 < v.width % 64) := by omega
          rw [if_neg hj, if_pos (by omega)]
          have hfalse := (hwf.2 j (by omega)).2
          unfold planeBit at hfalse
          rw [hword, hfalse]
          simp [hb1, hb2]
      · next hmiss =>
        have hj : j < v.width := by
          rw [Decidable.not_and_iff_or_not] at hmiss
          rcases hmiss with hc | hc
          · omega
          · rw [hwf.1] at hc
            omega
        rw [if_pos hj]
    · next hw1 =>
      have hj : ¬ j < v.width := by
        have := le_mul_wordsNeeded v.width
        omega
      rw [if_neg hj, getD_replicate]
      split
      · next hidx =>
        rw [if_pos (by omega)]
      · next hidx =>
        rw [if_neg (by omega)]
        simp
  · rw [if_neg hstep, planeBit_append, hwf.1]
    rw [Decidable.not_and_iff_or_not, bitsMask_eq, land63] at hstep
    split
    · next hw1 =>
      have hj : j < v.width := by
        rcases hstep with hc | hc
        · omega
        · omega
      rw [if_pos hj]
    · next hw1 =>
      have hj : ¬ j < v.width := by
        have := le_mul_wordsNeeded v.width
        omega
      rw [if_neg hj, getD_replicate]
      split
      · next hidx =>
        rw [if_pos (by omega)]
      · next hidx =>
        rw [if_neg (by omega)]
        simp

theorem resize_width {v : BelnapVec} {newWidth : Nat} (h : v.width < newWidth)
    (fill : Belnap.Value) : (v.Resize newWidth fill).width = newWidth := by
  rw [resize_grow_eq _ _ _ (by omega)]
  split
  · rfl
  · rfl

theorem resize_planeBit_fst {v : BelnapVec} (hwf : v.Wf) {newWidth : Nat}
    (h : v.width < newWidth) (fill : Belnap.Value) (j : Nat) :
    planeBit Prod.fst (v.Resize newWidth fill).words j =
      if j < v.width then planeBit Prod.fst v.words j
      else if j < newWidth then (belnapFillPos fill).testBit (j % 64)
      else false := by
  rw [resize_grow_eq _ _ _ (by omega)]
  split
  · next hinfo =>
    show planeBit Prod.fst
      (maskTailWords newWidth (resizeGrowWords v newWidth fill)) j = _
    by_cases hj : j < newWidth
    · rw [planeBit_maskTailWords_lt _ (fun p m => rfl) _ _ hj,
        resizeGrowWords_planeBit_fst hwf h fill j]
      by_cases hj2 : j < v.width
      · rw [if_pos hj2, if_pos hj2]
      · rw [if_neg hj2, if_neg hj2, if_pos (div64_lt_wordsNeeded hj),
          if_pos hj]
    · rw [planeBit_maskTailWords_ge _ (fun p m => rfl) rfl _ _
        (Nat.le_of_eq (resizeGrowWords_length hwf h fill)) (by omega)]
      rw [if_neg (by omega), if_neg (by omega)]
  · next hinfo =>
    have hfill : fill = .Unknown := by
      rcases fill <;> simp_all [Belnap.Value.HasInfo]
    show planeBit Prod.fst (resizeGrowWords v newWidth fill) j = _
    rw [resizeGrowWords_planeBit_fst hwf h fill j, hfill,
      belnapFillPos_unknown]
    simp only [Nat.zero_testBit]
    by_cases hj2 : j < v.width
    · rw [if_pos hj2, if_pos hj2]
    · rw [if_neg hj2, if_neg hj2]
      simp

theorem resize_planeBit_snd {v : BelnapVec} (hwf : v.Wf) {newWidth : Nat}
    (h : v.width < newWidth) (fill : Belnap.Value) (j : Nat) :
    planeBit Prod.snd (v.Resize newWidth fill).words j =
      if j < v.width then planeBit Prod.snd v.words j
      else if j < newWidth then (belnapFillNeg fill).testBit (j % 64)
      else false := by
  rw [resize_grow_eq _ _ _ (by omega)]
  split
  · next hinfo =>
    show planeBit Prod.snd
      (maskTailWords newWidth (resizeGrowWords v newWidth fill)) j = _
    by_cases hj : j < newWidth
    · rw [planeBit_maskTailWords_lt _ (fun p m => rfl) _ _ hj,
        resizeGrowWords_planeBit_snd hwf h fill j]
      by_cases hj2 : j < v.width
      · rw [if_pos hj2, if_pos hj2]
      · rw [if_neg hj2, if_neg hj2, if_pos (div64_lt_wordsNeeded hj),
          if_pos hj]
    · rw [planeBit_maskTailWords_ge _ (fun p m => rfl) rfl _ _
        (Nat.le_of_eq (resizeGrowWords_length hwf h fill)) (by omega)]
      rw [if_neg (by omega), if_neg (by omega)]
  · next hinfo =>
    have hfill : fill = .Unknown := by
      rcases fill <;> simp_all [Belnap.Value.HasInfo]
    show planeBit Prod.snd (resizeGrowWords v newWidth fill) j = _
    rw [resizeGrowWords_planeBit_snd hwf h fill j, hfill,
      belnapFillNeg_unknown]
    simp only [Nat.zero_testBit]
    by_cases hj2 : j < v.width
    · rw [if_pos hj2, if_pos hj2]
    · rw [if_neg hj2, if_neg hj2]
      simp

theorem wf_resize {v : BelnapVec} (hwf : v.Wf) (newWidth : Nat)
    (fill : Belnap.Value) : (v.Resize newWidth fill).Wf := by
  by_cases h : newWidth ≤ v.width
  · unfold Resize
    rw [if_pos h]
    exact wf_truncate hwf newWidth
  · constructor
    · rw [resize_grow_eq _ _ _ h]
      split
      · show (maskTailWords newWidth
          (resizeGrowWords v newWidth fill)).length = wordsNeeded newWidth
        rw [maskTailWords_length, resizeGrowWords_length hwf (by omega) fill]
      · show (resizeGrowWords v newWidth fill).length = wordsNeeded newWidth
        exact resizeGrowWords_length hwf (by omega) fill
    · intro i hi
      have hwidth : (v.Resize newWidth fill).width = newWidth :=
        resize_width (by omega) fill
      rw [hwidth] at hi
      constructor
      · rw [resize_planeBit_fst hwf (by omega) fill i, if_neg (by omega),
          if_neg (by omega)]
      · rw [resize_planeBit_snd hwf (by omega) fill i, if_neg (by omega),
          if_neg (by omega)]

theorem not_planeBit_fst {v : BelnapVec} (hwf : v.Wf) (j : Nat) :
    planeBit Prod.fst (v.Not).words j =
      if j < v.width then planeBit Prod.snd v.words j else false := by
  show planeBit Prod.fst (maskTailWords v.width
    (v.words.map (fun p => notWord p.1 p.2))) j = _
  split
  · next hj =>
    rw [planeBit_maskTailWords_lt _ (fun p m => rfl) _ _ hj,
      planeBit_map_fix _ _ rfl]
    rfl
  · next hj =>
    exact planeBit_maskTailWords_ge _ (fun p m => rfl) rfl _ _
      (by simp [hwf.1]) (by omega)

theorem not_planeBit_snd {v : BelnapVec} (hwf : v.Wf) (j : Nat) :
    planeBit Prod.snd (v.Not).words j =
      if j < v.width then planeBit Prod.fst v.words j else false := by
  show planeBit Prod.snd (maskTailWords v.width
    (v.words.map (fun p => notWord p.1 p.2))) j = _
  split
  · next hj =>
    rw [planeBit_maskTailWords_lt _ (fun p m => rfl) _ _ hj,
      planeBit_map_fix _ _ rfl]
    rfl
  · next hj =>
    exact planeBit_maskTailWords_ge _ (fun p m => rfl) rfl _ _
      (by simp [hwf.1]) (by omega)

theorem wf_not {v : BelnapVec} (hwf : v.Wf) : v.Not.Wf := by
  constructor
  · show (maskTailWords v.width _).length = wordsNeeded v.width
    rw [maskTailWords_length, List.length_map, hwf.1]
  · intro i hi
    have hwid : v.Not.width = v.width := rfl
    rw [hwid] at hi
    constructor
    · rw [not_planeBit_fst hwf, if_neg (by omega)]
    · rw [not_planeBit_snd hwf, if_neg (by omega)]

theorem and_planeBit_fst {v o : BelnapVec} (hv : v.Wf) (ho : o.Wf)
    (j : Nat) :
    planeBit Prod.fst (v.And o).words j =
      (planeBit Prod.fst v.words j && planeBit Prod.fst o.words j) := by
  show planeBit Prod.fst
    ((List.range (wordsNeeded (max v.width o.width))).map (fun k =>
      andWord (pairAt v.words k).1 (pairAt v.words k).2
        (pairAt o.words k).1 (pairAt o.words k).2)) j = _
  simp only [pairAt_eq]
  rw [planeBit_range_map _ rfl]
  split
  · next hk =>
    show ((v.words.getD (j / 64) (0, 0)).1 &&&
      (o.words.getD (j / 64) (0, 0)).1).testBit (j % 64) = _
    rw [Nat.testBit_land]
    rfl
  · next hk =>
    have h1 : v.words.length ≤ j / 64 := by
      rw [hv.1]
      have := wordsNeeded_mono (Nat.le_max_left v.width o.width)
      omega
    have h2 : o.words.length ≤ j / 64 := by
      rw [ho.1]
      have := wordsNeeded_mono (Nat.le_max_right v.width o.width)
      omega
    rw [planeBit_of_le _ rfl _ h1, planeBit_of_le _ rfl _ h2]
    rfl

theorem and_planeBit_snd {v o : BelnapVec} (hv : v.Wf) (ho : o.Wf)
    (j : Nat) :
    planeBit Prod.snd (v.And o).words j =
      (planeBit Prod.snd v.words j || planeBit Prod.snd o.words j) := by
  show planeBit Prod.snd
    ((List.range (wordsNeeded (max v.width o.width))).map (fun k =>
      andWord (pairAt v.words k).1 (pairAt v.words k).2
        (pairAt o.words k).1 (pairAt o.words k).2)) j = _
  simp only [pairAt_eq]
  rw [planeBit_range_map _ rfl]
  split
  · next hk =>
    show ((v.words.getD (j / 64) (0, 0)).2 |||
      (o.words.getD (j / 64) (0, 0)).2).testBit (j % 64) = _
    rw [Nat.testBit_lor]
    rfl
  · next hk =>
    have h1 : v.words.length ≤ j / 64 := by
      rw [hv.1]
      have := wordsNeeded_mono (Nat.le_max_left v.width o.width)
      omega
    have h2 : o.words.length ≤ j / 64 := by
      rw [ho.1]
      have := wordsNeeded_mono (Nat.le_max_right v.width o.width)
      omega
    rw [planeBit_of_le _ rfl _ h1, planeBit_of_le _ rfl _ h2]
    rfl

theorem or_planeBit_fst {v o : BelnapVec} (hv : v.Wf) (ho : o.Wf)
    (j : Nat) :
    planeBit Prod.fst (v.Or o).words j =
      (planeBit Prod.fst v.words j || planeBit Prod.fst o.words j) := by
  show planeBit Prod.fst
    ((List.range (wordsNeeded (max v.width o.width))).map (fun k =>
      orWord (pairAt v.words k).1 (pairAt v.words k).2
        (pairAt o.words k).1 (pairAt o.words k).2)) j = _
  simp only [pairAt_eq]
  rw [planeBit_range_map _ rfl]
  split
  · next hk =>
    show ((v.words.getD (j / 64) (0, 0)).1 |||
      (o.words.getD (j / 64) (0, 0)).1).testBit (j % 64) = _
    rw [Nat.testBit_lor]
    rfl
  · next hk =>
    have h1 : v.words.length ≤ j / 64 := by
      rw [hv.1]
      have := wordsNeeded_mono (Nat.le_max_left v.width o.width)
      omega
    have h2 : o.words.length ≤ j / 64 := by
      rw [ho.1]
      have := wordsNeeded_mono (Nat.le_max_right v.width o.width)
      omega
    rw [planeBit_of_le _ rfl _ h1, planeBit_of_le _ rfl _ h2]
    rfl

theorem or_planeBit_snd {v o : BelnapVec} (hv : v.Wf) (ho : o.Wf)
    (j : Nat) :
    planeBit Prod.snd (v.Or o).words j =
      (planeBit Prod.snd v.words j && planeBit Prod.snd o.words j) := by
  show planeBit Prod.snd
    ((List.range (wordsNeeded (max v.width o.width))).map (fun k =>
      orWord (pairAt v.words k).1 (pairAt v.words k).2
        (pairAt o.words k).1 (pairAt o.words k).2)) j = _
  simp only [pairAt_eq]
  rw [planeBit_range_map _ rfl]
  split
  · next hk =>
    show ((v.words.getD (j / 64) (0, 0)).2 &&&
      (o.words.getD (j / 64) (0, 0)).2).testBit (j % 64) = _
    rw [Nat.testBit_land]
    rfl
  · next hk =>
    have h1 : v.words.length ≤ j / 64 := by
      rw [hv.1]
      have := wordsNeeded_mono (Nat.le_max_left v.width o.width)
      omega
    have h2 : o.words.length ≤ j / 64 := by
      rw [ho.1]
      have := wordsNeeded_mono (Nat.le_max_right v.width o.width)
      omega
    rw [planeBit_of_le _ rfl _ h1, planeBit_of_le _ rfl _ h2]
    rfl

theorem merge_planeBit_fst {v o : BelnapVec} (hv : v.Wf) (ho : o.Wf)
    (j : Nat) :
    planeBit Prod.fst (v.Merge o).words j =
      (planeBit Prod.fst v.words j || planeBit Prod.fst o.words j) := by
  show planeBit Prod.fst
    ((List.range (wordsNeeded (max v.width o.width))).map (fun k =>
      mergeWord (pairAt v.words k).1 (pairAt v.words k).2
        (pairAt o.words k).1 (pairAt o.words k).2)) j = _
  simp only [pairAt_eq]
  rw [planeBit_range_map _ rfl]
  split
  · next hk =>
    show ((v.words.getD (j / 64) (0, 0)).1 |||
      (o.words.getD (j / 64) (0, 0)).1).testBit (j % 64) = _
    rw [Nat.testBit_lor]
    rfl
  · next hk =>
    have h1 : v.words.length ≤ j / 64 := by
      rw [hv.1]
      have := wordsNeeded_mono (Nat.le_max_left v.width o.width)
      omega
    have h2 : o.words.length ≤ j / 64 := by
      rw [ho.1]
      have := wordsNeeded_mono (Nat.le_max_right v.width o.width)
      omega
    rw [planeBit_of_le _ rfl _ h1, planeBit_of_le _ rfl _ h2]
    rfl

theorem merge_planeBit_snd {v o : BelnapVec} (hv : v.Wf) (ho : o.Wf)
    (j : Nat) :
    planeBit Prod.snd (v.Merge o).words j =
      (planeBit Prod.snd v.words j || planeBit Prod.snd o.words j) := by
  show planeBit Prod.snd
    ((List.range (wordsNeeded (max v.width o.width))).map (fun k =>
      mergeWord (pairAt v.words k).1 (pairAt v.words k).2
        (pairAt o.words k).1 (pairAt o.words k).2)) j = _
  simp only [pairAt_eq]
  rw [planeBit_range_map _ rfl]
  split
  · next hk =>
    show ((v.words.getD (j / 64) (0, 0)).2 |||
      (o.words.getD (j / 64) (0, 0)).2).testBit (j % 64) = _
    rw [Nat.testBit_lor]
    rfl
  · next hk =>
    have h1 : v.words.length ≤ j / 64 := by
      rw [hv.1]
      have := wordsNeeded_mono (Nat.le_max_left v.width o.width)
      omega
    have h2 : o.words.length ≤ j / 64 := by
      rw [ho.1]
      have := wordsNeeded_mono (Nat.le_max_right v.width o.width)
      omega
    rw [planeBit_of_le _ rfl _ h1, planeBit_of_le _ rfl _ h2]
    rfl

theorem and_width (v o : BelnapVec) :
    (v.And o).width = max v.width o.width := rfl

theorem or_width (v o : BelnapVec) :
    (v.Or o).width = max v.width o.width := rfl

theorem merge_width (v o : BelnapVec) :
    (v.Merge o).width = max v.width o.width := rfl

theorem wf_and {v o : BelnapVec} (hv : v.Wf) (ho : o.Wf) : (v.And o).Wf := by
  constructor
  · show ((List.range _).map _).length = _
    simp [and_width]
  · intro i hi
    rw [and_width] at hi
    constructor
    · rw [and_planeBit_fst hv ho, (hv.2 i (by omega)).1,
        (ho.2 i (by omega)).1]
      rfl
    · rw [and_planeBit_snd hv ho, (hv.2 i (by omega)).2,
        (ho.2 i (by omega)).2]
      rfl

theorem wf_or {v o : BelnapVec} (hv : v.Wf) (ho : o.Wf) : (v.Or o).Wf := by
  constructor
  · show ((List.range _).map _).length = _
    simp [or_width]
  · intro i hi
    rw [or_width] at hi
    constructor
    · rw [or_planeBit_fst hv ho, (hv.2 i (by omega)).1,
        (ho.2 i (by omega)).1]
      rfl
    · rw [or_planeBit_snd hv ho, (hv.2 i (by omega)).2,
        (ho.2 i (by omega)).2]
      rfl

theorem wf_merge {v o : BelnapVec} (hv : v.Wf) (ho : o.Wf) :
    (v.Merge o).Wf := by
  constructor
  · show ((List.range _).map _).length = _
    simp [merge_width]
  · intro i hi
    rw [merge_width] at hi
    constructor
    · rw [merge_planeBit_fst hv ho, (hv.2 i (by omega)).1,
        (ho.2 i (by omega)).1]
      rfl
    · rw [merge_planeBit_snd hv ho, (hv.2 i (by omega)).2,
        (ho.2 i (by omega)).2]
      rfl

theorem wf_implies {v o : BelnapVec} (hv : v.Wf) (ho : o.Wf) :
    (v.Implies o).Wf :=
  wf_or (wf_not hv) ho

theorem getU_ge {v : BelnapVec} (hwf : v.Wf) {j : Nat}
    (hj : v.width ≤ j) : v.getUnchecked j = .Unknown := by
  rw [getUnchecked_view, (hwf.2 j hj).1, (hwf.2 j hj).2]
  rfl

theorem get_coe_lt {v : BelnapVec} {j : Nat} (hj : j < v.width) :
    v.Get (j : Int) = .ok (v.getUnchecked j) := by
  unfold Get
  rw [if_neg (by push_cast; omega)]
  norm_num

theorem get_coe_ge {v : BelnapVec} {j : Nat} (hj : v.width ≤ j) :
    v.Get (j : Int) = .error .ErrOutOfBounds := by
  unfold Get
  rw [if_pos (by push_cast; omega)]

theorem truncate_get_lt {v : BelnapVec} {newWidth j : Nat}
    (hnw : newWidth < v.width) (hj : j < newWidth) :
    (v.Truncate newWidth).getUnchecked j = v.getUnchecked j := by
  rw [getUnchecked_view, getUnchecked_view,
    truncate_planeBit_lt hnw hj Prod.fst (fun p m => rfl) rfl,
    truncate_planeBit_lt hnw hj Prod.snd (fun p m => rfl) rfl]

theorem resize_get_old {v : BelnapVec} (hwf : v.Wf) {newWidth : Nat}
    (h : v.width < newWidth) (fill : Belnap.Value) {j : Nat}
    (hj : j < v.width) :
    (v.Resize newWidth fill).getUnchecked j = v.getUnchecked j := by
  rw [getUnchecked_view, getUnchecked_view,
    resize_planeBit_fst hwf h fill j, resize_planeBit_snd hwf h fill j,
    if_pos hj, if_pos hj]

theorem resize_get_fill {v : BelnapVec} (hwf : v.Wf) {newWidth : Nat}
    (h : v.width < newWidth) (fill : Belnap.Value) {j : Nat}
    (hj1 : v.width ≤ j) (hj2 : j < newWidth) :
    (v.Resize newWidth fill).getUnchecked j = fill := by
  rw [getUnchecked_view,
    resize_planeBit_fst hwf h fill j, resize_planeBit_snd hwf h fill j,
    if_neg (show ¬ j < v.width by omega),
    if_neg (show ¬ j < v.width by omega), if_pos hj2, if_pos hj2]
  exact belnapFill_decode fill (by omega)

theorem setNat_get_self {v : BelnapVec} (hwf : v.Wf) (i0 : Nat)
    (val : Belnap.Value) : (v.setNat i0 val).getUnchecked i0 = val := by
  rw [getUnchecked_view, setNat_planeBit_fst hwf, setNat_planeBit_snd hwf,
    if_pos rfl, if_pos rfl]
  exact fromBool2_decide_bits val

theorem setNat_get_other {v : BelnapVec} (hwf : v.Wf) {i0 j : Nat}
    (hne : i0 ≠ j) (val : Belnap.Value) :
    (v.setNat i0 val).getUnchecked j = v.getUnchecked j := by
  rw [getUnchecked_view, getUnchecked_view, setNat_planeBit_fst hwf,
    setNat_planeBit_snd hwf, if_neg hne, if_neg hne]

end Attic.BelnapVec

/-- The known-plane fill word of kleene `Resize`. -/
def kleeneFillKnown (fill : Kleene) : Nat :=
  match fill with
  | .Unknown => 0
  | _ => U64

/-- The value-plane fill word of kleene `Resize`. -/
def kleeneFillValue (fill : Kleene) : Nat :=
  match fill with
  | .True => U64
  | _ => 0

theorem kleeneFill_decode (fill : Kleene) {b : Nat} (hb : b < 64) :
    kleeneFromBool2 ((kleeneFillKnown fill).testBit b)
      ((kleeneFillValue fill).testBit b) = fill := by
  cases fill <;>
    simp [kleeneFillKnown, kleeneFillValue, testBit_U64, hb, kleeneFromBool2]

theorem kleeneFill_value_le_known (fill : Kleene) (b : Nat)
    (h : (kleeneFillValue fill).testBit b = true) :
    (kleeneFillKnown fill).testBit b = true := by
  cases fill <;> simp_all [kleeneFillKnown, kleeneFillValue]

/-- The known bit written by kleene `setUnchecked`. -/
def kleeneValKnown (val : Kleene) : Bool :=
  match val with
  | .Unknown => false
  | _ => true

/-- The value bit written by kleene `setUnchecked`. -/
def kleeneValValue (val : Kleene) : Bool :=
  match val with
  | .True => true
  | _ => false

theorem kleeneFromBool2_valBits : ∀ val : Kleene,
    kleeneFromBool2 (kleeneValKnown val) (kleeneValValue val) = val := by
  decide

namespace Kleene.Vec

/-- Representation invariant of kleene `Vec`: exact word count, clean tail on
both planes, and value bits a subset of known bits at every position. -/
def Wf (v : Vec) : Prop :=
  v.words.length = wordsNeeded v.width ∧
  (∀ i, v.width ≤ i →
    planeBit Prod.fst v.words i = false ∧
    planeBit Prod.snd v.words i = false) ∧
  (∀ i, planeBit Prod.snd v.words i = true →
    planeBit Prod.fst v.words i = true)

theorem kv_wf_new (w : Nat) : (NewVec w).Wf := by
  refine ⟨by simp [NewVec], ?_, ?_⟩
  · intro i hi
    unfold NewVec
    constructor <;> rw [planeBit_replicate _ rfl] <;> simp
  · intro i hi
    unfold NewVec at hi
    rw [planeBit_replicate _ rfl] at hi
    simp at hi

theorem allTrue_planeBit_fst (w : Nat) (i : Nat) :
    planeBit Prod.fst (AllTrue w).words i = decide (i < w) := by
  show planeBit Prod.fst
    (maskTailWords w (List.replicate (wordsNeeded w) (U64, U64))) i = _
  by_cases hi : i < w
  · rw [planeBit_maskTailWords_lt _ (fun p m => rfl) _ _ hi,
      planeBit_replicate _ rfl]
    have h1 : i / 64 < wordsNeeded w := div64_lt_wordsNeeded hi
    simp [h1, testBit_U64, Nat.mod_lt, hi]
  · rw [planeBit_maskTailWords_ge _ (fun p m => rfl) rfl _ _
      (by simp) (by omega)]
    simp [hi]

theorem allTrue_planeBit_snd (w : Nat) (i : Nat) :
    planeBit Prod.snd (AllTrue w).words i = decide (i < w) := by
  show planeBit Prod.snd
    (maskTailWords w (List.replicate (wordsNeeded w) (U64, U64))) i = _
  by_cases hi : i < w
  · rw [planeBit_maskTailWords_lt _ (fun p m => rfl) _ _ hi,
      planeBit_replicate _ rfl]
    have h1 : i / 64 < wordsNeeded w := div64_lt_wordsNeeded hi
    simp [h1, testBit_U64, Nat.mod_lt, hi]
  · rw [planeBit_maskTailWords_ge _ (fun p m => rfl) rfl _ _
      (by simp) (by omega)]
    simp [hi]

theorem wf_allTrue (w : Nat) : (AllTrue w).Wf := by
  have hwid : (AllTrue w).width = w := rfl
  refine ⟨?_, ?_, ?_⟩
  · show (maskTailWords w _).length = _
    rw [hwid]
    simp [maskTailWords_length]
  · intro i hi
    rw [hwid] at hi
    show planeBit Prod.fst (AllTrue w).words i = false ∧
      planeBit Prod.snd (AllTrue w).words i = false
    rw [allTrue_planeBit_fst, allTrue_planeBit_snd]
    simp
    omega
  · intro i hi
    show planeBit Prod.fst (AllTrue w).words i = true
    rw [allTrue_planeBit_fst]
    rw [allTrue_planeBit_snd] at hi
    exact hi

theorem allFalse_planeBit_fst (w : Nat) (i : Nat) :
    planeBit Prod.fst (AllFalse w).words i = decide (i < w) := by
  show planeBit Prod.fst
    (maskTailWords w (List.replicate (wordsNeeded w) (U64, 0))) i = _
  by_cases hi : i < w
  · rw [planeBit_maskTailWords_lt _ (fun p m => rfl) _ _ hi,
      planeBit_replicate _ rfl]
    have h1 : i / 64 < wordsNeeded w := div64_lt_wordsNeeded hi
    simp [h1, testBit_U64, Nat.mod_lt, hi]
  · rw [planeBit_maskTailWords_ge _ (fun p m => rfl) rfl _ _
      (by simp) (by omega)]
    simp [hi]

theorem allFalse_planeBit_snd (w : Nat) (i : Nat) :
    planeBit Prod.snd (AllFalse w).words i = false := by
  show planeBit Prod.snd
    (maskTailWords w (List.replicate (wordsNeeded w) (U64, 0))) i = _
  by_cases hi : i < w
  · rw [planeBit_maskTailWords_lt _ (fun p m => rfl) _ _ hi,
      planeBit_replicate _ rfl]
    simp
  · rw [planeBit_maskTailWords_ge _ (fun p m => rfl) rfl _ _
      (by simp) (by omega)]

theorem wf_allFalse (w : Nat) : (AllFalse w).Wf := by
  have hwid : (AllFalse w).width = w := rfl
  refine ⟨?_, ?_, ?_⟩
  · show (maskTailWords w _).length = _
    rw [hwid]
    simp [maskTailWords_length]
  · intro i hi
    rw [hwid] at hi
    show planeBit Prod.fst (AllFalse w).words i = false ∧
      planeBit Prod.snd (AllFalse w).words i = false
    rw [allFalse_planeBit_fst, allFalse_planeBit_snd]
    simp
    omega
  · intro i hi
    show planeBit Prod.fst (AllFalse w).words i = true
    rw [allFalse_planeBit_snd] at hi
    cases hi

theorem truncate_planeBit {v : Vec} (hwf : v.Wf) {newWidth : Nat}
    (h : newWidth < v.width) (sel : Nat × Nat → Nat)
    (hsel : ∀ p : Nat × Nat, ∀ m, sel (p.1 &&& m, p.2 &&& m) = sel p &&& m)
    (hz : sel (0, 0) = 0) (i : Nat) :
    planeBit sel (v.Truncate newWidth).words i =
      if i < newWidth then planeBit sel v.words i else false := by
  unfold Truncate
  rw [if_neg (by omega)]
  show planeBit sel (maskTailWords newWidth _) i = _
  split
  · next hi =>
    rw [planeBit_maskTailWords_lt sel hsel newWidth _ hi]
    unfold planeBit
    rw [getD_take, if_pos (div64_lt_wordsNeeded hi)]
  · next hi =>
    exact planeBit_maskTailWords_ge sel hsel hz newWidth _ (by simp)
      (by omega)

theorem kv_wf_truncate {v : Vec} (hwf : v.Wf) (newWidth : Nat) :
    (v.Truncate newWidth).Wf := by
  by_cases h : v.width ≤ newWidth
  · unfold Truncate
    rw [if_pos h]
    exact hwf
  · have hwid : (v.Truncate newWidth).width = newWidth := by
      unfold Truncate
      rw [if_neg h]
      rfl
    refine ⟨?_, ?_, ?_⟩
    · rw [hwid]
      unfold Truncate
      rw [if_neg h]
      show (maskTailWords newWidth _).length = _
      rw [maskTailWords_length, List.length_take, hwf.1]
      have := wordsNeeded_mono (show newWidth ≤ v.width by omega)
      omega
    · intro i hi
      rw [hwid] at hi
      constructor <;>
        rw [truncate_planeBit hwf (by omega) _ (fun p m => rfl) rfl,
          if_neg (by omega)]
    · intro i hi
      rw [truncate_planeBit hwf (by omega) _ (fun p m => rfl) rfl] at hi ⊢
      split at hi
      · next hlt =>
        rw [if_pos hlt]
        exact hwf.2.2 i hi
      · cases hi

theorem kv_truncate_get_lt {v : Vec} (hwf : v.Wf) {newWidth j : Nat}
    (hnw : newWidth < v.width) (hj : j < newWidth) :
    (v.Truncate newWidth).getUnchecked j = v.getUnchecked j := by
  rw [kv_getUnchecked_view, kv_getUnchecked_view,
    truncate_planeBit hwf hnw Prod.fst (fun p m => rfl) rfl,
    truncate_planeBit hwf hnw Prod.snd (fun p m => rfl) rfl,
    if_pos hj, if_pos hj]

/-- The word list built by the growing branch of kleene `Resize`. -/
def resizeGrowWords (v : Vec) (newWidth : Nat) (fill : Kleene) :
    List (Nat × Nat) :=
  (if 0 < wordsNeeded v.width ∧ v.width &&& bitsMask ≠ 0 then
    v.words.set (wordsNeeded v.width - 1)
      ((v.words.getD (wordsNeeded v.width - 1) (0, 0)).1 |||
        (kleeneFillKnown fill &&& not64 (tailMask v.width)),
       (v.words.getD (wordsNeeded v.width - 1) (0, 0)).2 |||
        (kleeneFillValue fill &&& not64 (tailMask v.width)))
  else v.words) ++
  List.replicate (wordsNeeded newWidth - wordsNeeded v.width)
    (kleeneFillKnown fill, kleeneFillValue fill)

theorem kv_resize_grow_eq (v : Vec) (newWidth : Nat) (fill : Kleene)
    (h : ¬ newWidth ≤ v.width) :
    v.Resize newWidth fill =
      if fill.IsKnown then
        Vec.maskTail ⟨newWidth, resizeGrowWords v newWidth fill⟩
      else ⟨newWidth, resizeGrowWords v newWidth fill⟩ := by
  unfold Resize resizeGrowWords kleeneFillKnown kleeneFillValue
  rw [if_neg h]

theorem kv_resizeGrowWords_length {v : Vec} (hwf : v.Wf) {newWidth : Nat}
    (h : v.width < newWidth) (fill : Kleene) :
    (resizeGrowWords v newWidth fill).length = wordsNeeded newWidth := by
  unfold resizeGrowWords
  have hmono := wordsNeeded_mono (Nat.le_of_lt h)
  split <;> simp [hwf.1] <;> omega

theorem kv_resizeGrowWords_planeBit_fst {v : Vec} (hwf : v.Wf)
    {newWidth : Nat} (h : v.width < newWidth) (fill : Kleene)
    (j : Nat) :
    planeBit Prod.fst (resizeGrowWords v newWidth fill) j =
      if j < v.width then planeBit Prod.fst v.words j
      else if j / 64 < wordsNeeded newWidth then
        (kleeneFillKnown fill).testBit (j % 64)
      else false := by
  have hweq : wordsNeeded v.width = (v.width + 63) / 64 := wordsNeeded_eq _
  have hweq2 : wordsNeeded newWidth = (newWidth + 63) / 64 := wordsNeeded_eq _
  unfold resizeGrowWords
  by_cases hstep : 0 < wordsNeeded v.width ∧ v.width &&& bitsMask ≠ 0
  · rcases hstep with ⟨hpos, hmod⟩
    rw [bitsMask_eq, land63] at hmod
    rw [if_pos ⟨hpos, by rw [bitsMask_eq, land63]; exact hmod⟩,
      planeBit_append, List.length_set, hwf.1]
    split
    · next hw1 =>
      rw [planeBit_set]
      split
      · next hhit =>
        rcases hhit with ⟨hword, _⟩
        show ((v.words.getD (wordsNeeded v.width - 1) (0, 0)).1 |||
          (kleeneFillKnown fill &&& not64 (tailMask v.width))).testBit
            (j % 64) = _
        rw [Nat.testBit_lor, Nat.testBit_land,
          testBit_not64 _ (by omega), testBit_tailMask _ (by omega)]
        by_cases hj : j < v.width
        · have hbm : v.width % 64 = 0 ∨ j % 64 < v.width % 64 := by omega
          rw [if_pos hj]
          unfold planeBit
          rw [← hword]
          rcases hbm with hm | hm <;> simp [hm]
        · have hb1 : ¬(v.width % 64 = 0) := by omega
          have hb2 : ¬(j % 64 < v.width % 64) := by omega
          rw [if_neg hj, if_pos (by omega)]
          have hfalse := ((hwf.2.1) j (by omega)).1
          unfold planeBit at hfalse
          rw [hword, hfalse]
          simp [hb1, hb2]
      · next hmiss =>
        have hj : j < v.width := by
          rw [Decidable.not_and_iff_or_not] at hmiss
          rcases hmiss with hc | hc
          · omega
          · rw [hwf.1] at hc
            omega
        rw [if_pos hj]
    · next hw1 =>
      have hj : ¬ j < v.width := by
        have := le_mul_wordsNeeded v.width
        omega
      rw [if_neg hj, getD_replicate]
      split
      · next hidx =>
        rw [if_pos (by omega)]
      · next hidx =>
        rw [if_neg (by omega)]
        simp
  · rw [if_neg hstep, planeBit_append, hwf.1]
    rw [Decidable.not_and_iff_or_not, bitsMask_eq, land63] at hstep
    split
    · next hw1 =>
      have hj : j < v.width := by
        rcases hstep with hc | hc
        · omega
        · omega
      rw [if_pos hj]
    · next hw1 =>
      have hj : ¬ j < v.width := by
        have := le_mul_wordsNeeded v.width
        omega
      rw [if_neg hj, getD_replicate]
      split
      · next hidx =>
        rw [if_pos (by omega)]
      · next hidx =>
        rw [if_neg (by omega)]
        simp

theorem kv_resizeGrowWords_planeBit_snd {v : Vec} (hwf : v.Wf)
    {newWidth : Nat} (h : v.width < newWidth) (fill : Kleene)
    (j : Nat) :
    planeBit Prod.snd (resizeGrowWords v newWidth fill) j =
      if j < v.width then planeBit Prod.snd v.words j
      else if j / 64 < wordsNeeded newWidth then
        (kleeneFillValue fill).testBit (j % 64)
      else false := by
  have hweq : wordsNeeded v.width = (v.width + 63) / 64 := wordsNeeded_eq _
  have hweq2 : wordsNeeded newWidth = (newWidth + 63) / 64 := wordsNeeded_eq _
  unfold resizeGrowWords
  by_cases hstep : 0 < wordsNeeded v.width ∧ v.width &&& bitsMask ≠ 0
  · rcases hstep with ⟨hpos, hmod⟩
    rw [bitsMask_eq, land63] at hmod
    rw [if_pos ⟨hpos, by rw [bitsMask_eq, land63]; exact hmod⟩,
      planeBit_append, List.length_set, hwf.1]
    split
    · next hw1 =>
      rw [planeBit_set]
      split
      · next hhit =>
        rcases hhit with ⟨hword, _⟩
        show ((v.words.getD (wordsNeeded v.width - 1) (0, 0)).2 |||
          (kleeneFillValue fill &&& not64 (tailMask v.width))).testBit
            (j % 64) = _
        rw [Nat.testBit_lor, Nat.testBit_land,
          testBit_not64 _ (by omega), testBit_tailMask _ (by omega)]
        by_cases hj : j < v.width
        · have hbm : v.width % 64 = 0 ∨ j % 64 < v.width % 64 := by omega
          rw [if_pos hj]
          unfold planeBit
          rw [← hword]
          rcases hbm with hm | hm <;> simp [hm]
        · have hb1 : ¬(v.width % 64 = 0) := by omega
          have hb2 : ¬(j % 64 < v.width % 64) := by omega
          rw [if_neg hj, if_pos (by omega)]
          have hfalse := ((hwf.2.1) j (by omega)).2
          unfold planeBit at hfalse
          rw [hword, hfalse]
          simp [hb1, hb2]
      · next hmiss =>
        have hj : j < v.width := by
          rw [Decidable.not_and_iff_or_not] at hmiss
          rcases hmiss with hc | hc
          · omega
          · rw [hwf.1] at hc
            omega
        rw [if_pos hj]
    · next hw1 =>
      have hj : ¬ j < v.width := by
        have := le_mul_wordsNeeded v.width
        omega
      rw [if_neg hj, getD_replicate]
      split
      · next hidx =>
        rw [if_pos (by omega)]
      · next hidx =>
        rw [if_neg (by omega)]
        simp
  · rw [if_neg hstep, planeBit_append, hwf.1]
    rw [Decidable.not_and_iff_or_not, bitsMask_eq, land63] at hstep
    split
    · next hw1 =>
      have hj : j < v.width := by
        rcases hstep with hc | hc
        · omega
        · omega
      rw [if_pos hj]
    · next hw1 =>
      have hj : ¬ j < v.width := by
        have := le_mul_wordsNeeded v.width
        omega
      rw [if_neg hj, getD_replicate]
      split
      · next hidx =>
        rw [if_pos (by omega)]
      · next hidx =>
        rw [if_neg (by omega)]
        simp

theorem kv_resize_width {v : Vec} {newWidth : Nat} (h : v.width < newWidth)
    (fill : Kleene) : (v.Resize newWidth fill).width = newWidth := by
  rw [kv_resize_grow_eq _ _ _ (by omega)]
  split
  · rfl
  · rfl

theorem kv_resize_planeBit_fst {v : Vec} (hwf : v.Wf) {newWidth : Nat}
    (h : v.width < newWidth) (fill : Kleene) (j : Nat) :
    planeBit Prod.fst (v.Resize newWidth fill).words j =
      if j < v.width then planeBit Prod.fst v.words j
      else if j < newWidth then (kleeneFillKnown fill).testBit (j % 64)
      else false := by
  rw [kv_resize_grow_eq _ _ _ (by omega)]
  split
  · next hinfo =>
    show planeBit Prod.fst
      (maskTailWords newWidth (resizeGrowWords v newWidth fill)) j = _
    by_cases hj : j < newWidth
    · rw [planeBit_maskTailWords_lt _ (fun p m => rfl) _ _ hj,
        kv_resizeGrowWords_planeBit_fst hwf h fill j]
      by_cases hj2 : j < v.width
      · rw [if_pos hj2, if_pos hj2]
      · rw [if_neg hj2, if_neg hj2, if_pos (div64_lt_wordsNeeded hj),
          if_pos hj]
    · rw [planeBit_maskTailWords_ge _ (fun p m => rfl) rfl _ _
        (Nat.le_of_eq (kv_resizeGrowWords_length hwf h fill)) (by omega)]
      rw [if_neg (by omega), if_neg (by omega)]
  · next hinfo =>
    have hfill : fill = .Unknown := by
      rcases fill <;> simp_all [Kleene.IsKnown]
    show planeBit Prod.fst (resizeGrowWords v newWidth fill) j = _
    rw [kv_resizeGrowWords_planeBit_fst hwf h fill j, hfill]
    show (if j < v.width then _ else if _ then (kleeneFillKnown .Unknown).testBit _ else false) = _
    simp only [kleeneFillKnown, Nat.zero_testBit]
    by_cases hj2 : j < v.width
    · rw [if_pos hj2, if_pos hj2]
    · rw [if_neg hj2, if_neg hj2]
      simp

theorem kv_resize_planeBit_snd {v : Vec} (hwf : v.Wf) {newWidth : Nat}
    (h : v.width < newWidth) (fill : Kleene) (j : Nat) :
    planeBit Prod.snd (v.Resize newWidth fill).words j =
      if j < v.width then planeBit Prod.snd v.words j
      else if j < newWidth then (kleeneFillValue fill).testBit (j % 64)
      else false := by
  rw [kv_resize_grow_eq _ _ _ (by omega)]
  split
  · next hinfo =>
    show planeBit Prod.snd
      (maskTailWords newWidth (resizeGrowWords v newWidth fill)) j = _
    by_cases hj : j < newWidth
    · rw [planeBit_maskTailWords_lt _ (fun p m => rfl) _ _ hj,
        kv_resizeGrowWords_planeBit_snd hwf h fill j]
      by_cases hj2 : j < v.width
      · rw [if_pos hj2, if_pos hj2]
      · rw [if_neg hj2, if_neg hj2, if_pos (div64_lt_wordsNeeded hj),
          if_pos hj]
    · rw [planeBit_maskTailWords_ge _ (fun p m => rfl) rfl _ _
        (Nat.le_of_eq (kv_resizeGrowWords_length hwf h fill)) (by omega)]
      rw [if_neg (by omega), if_neg (by omega)]
  · next hinfo =>
    have hfill : fill = .Unknown := by
      rcases fill <;> simp_all [Kleene.IsKnown]
    show planeBit Prod.snd (resizeGrowWords v newWidth fill) j = _
    rw [kv_resizeGrowWords_planeBit_snd hwf h fill j, hfill]
    show (if j < v.width then _ else if _ then (kleeneFillValue .Unknown).testBit _ else false) = _
    simp only [kleeneFillValue, Nat.zero_testBit]
    by_cases hj2 : j < v.width
    · rw [if_pos hj2, if_pos hj2]
    · rw [if_neg hj2, if_neg hj2]
      simp

theorem kv_wf_resize {v : Vec} (hwf : v.Wf) (newWidth : Nat) (fill : Kleene) :
    (v.Resize newWidth fill).Wf := by
  by_cases h : newWidth ≤ v.width
  · unfold Resize
    rw [if_pos h]
    exact kv_wf_truncate hwf newWidth
  · have hwidth : (v.Resize newWidth fill).width = newWidth :=
      kv_resize_width (by omega) fill
    refine ⟨?_, ?_, ?_⟩
    · rw [hwidth, kv_resize_grow_eq _ _ _ h]
      split
      · show (maskTailWords newWidth
          (resizeGrowWords v newWidth fill)).length = wordsNeeded newWidth
        rw [maskTailWords_length, kv_resizeGrowWords_length hwf (by omega) fill]
      · show (resizeGrowWords v newWidth fill).length = wordsNeeded newWidth
        exact kv_resizeGrowWords_length hwf (by omega) fill
    · intro i hi
      rw [hwidth] at hi
      constructor
      · rw [kv_resize_planeBit_fst hwf (by omega) fill i, if_neg (by omega),
          if_neg (by omega)]
      · rw [kv_resize_planeBit_snd hwf (by omega) fill i, if_neg (by omega),
          if_neg (by omega)]
    · intro i hi
      rw [kv_resize_planeBit_snd hwf (by omega) fill i] at hi
      rw [kv_resize_planeBit_fst hwf (by omega) fill i]
      split at hi
      · next hlt =>
        rw [if_pos hlt]
        exact hwf.2.2 i hi
      · split at hi
        · next hlt2 =>
          rw [if_neg (by omega), if_pos hlt2]
          exact kleeneFill_value_le_known fill _ hi
        · cases hi

theorem kv_resize_get_old {v : Vec} (hwf : v.Wf) {newWidth : Nat}
    (h : v.width < newWidth) (fill : Kleene) {j : Nat}
    (hj : j < v.width) :
    (v.Resize newWidth fill).getUnchecked j = v.getUnchecked j := by
  rw [kv_getUnchecked_view, kv_getUnchecked_view,
    kv_resize_planeBit_fst hwf h fill j, kv_resize_planeBit_snd hwf h fill j,
    if_pos hj, if_pos hj]

theorem kv_resize_get_fill {v : Vec} (hwf : v.Wf) {newWidth : Nat}
    (h : v.width < newWidth) (fill : Kleene) {j : Nat}
    (hj1 : v.width ≤ j) (hj2 : j < newWidth) :
    (v.Resize newWidth fill).getUnchecked j = fill := by
  rw [kv_getUnchecked_view,
    kv_resize_planeBit_fst hwf h fill j, kv_resize_planeBit_snd hwf h fill j,
    if_neg (show ¬ j < v.width by omega),
    if_neg (show ¬ j < v.width by omega), if_pos hj2, if_pos hj2]
  exact kleeneFill_decode fill (by omega)

theorem planeBit_set_cond_fst (ws : List (Nat × Nat)) (i0 j : Nat)
    (t : Bool) (q1 q2 : Nat)
    (hq : q1 = if t then (ws.getD (i0 / 64) (0, 0)).1 ||| (1 <<< (i0 % 64))
      else (ws.getD (i0 / 64) (0, 0)).1 &&& not64 (1 <<< (i0 % 64))) :
    planeBit Prod.fst (ws.set (i0 / 64) (q1, q2)) j =
      if i0 / 64 = j / 64 ∧ i0 / 64 < ws.length ∧ i0 % 64 = j % 64 then t
      else planeBit Prod.fst ws j := by
  rw [planeBit_set]
  split
  · next hhit =>
    rcases hhit with ⟨hw, hl⟩
    have hview : planeBit Prod.fst ws j =
        ((ws.getD (i0 / 64) (0, 0)).1).testBit (j % 64) := by
      unfold planeBit
      rw [hw]
    show q1.testBit (j % 64) = _
    by_cases hbb : i0 % 64 = j % 64
    · rw [if_pos ⟨hw, hl, hbb⟩]
      cases t
      · rw [if_neg (by simp)] at hq
        rw [hq, testBit_clearBit _ _ (by omega)]
        simp [hbb]
      · rw [if_pos (by simp)] at hq
        rw [hq, testBit_orBit]
        simp [hbb]
    · rw [if_neg (fun hc => hbb hc.2.2), hview]
      cases t
      · rw [if_neg (by simp)] at hq
        rw [hq, testBit_clearBit _ _ (by omega)]
        simp [hbb]
      · rw [if_pos (by simp)] at hq
        rw [hq, testBit_orBit]
        simp [hbb]
  · next hmiss =>
    rw [if_neg (fun hc => hmiss ⟨hc.1, hc.2.1⟩)]

theorem planeBit_set_cond_snd (ws : List (Nat × Nat)) (i0 j : Nat)
    (t : Bool) (q1 q2 : Nat)
    (hq : q2 = if t then (ws.getD (i0 / 64) (0, 0)).2 ||| (1 <<< (i0 % 64))
      else (ws.getD (i0 / 64) (0, 0)).2 &&& not64 (1 <<< (i0 % 64))) :
    planeBit Prod.snd (ws.set (i0 / 64) (q1, q2)) j =
      if i0 / 64 = j / 64 ∧ i0 / 64 < ws.length ∧ i0 % 64 = j % 64 then t
      else planeBit Prod.snd ws j := by
  rw [planeBit_set]
  split
  · next hhit =>
    rcases hhit with ⟨hw, hl⟩
    have hview : planeBit Prod.snd ws j =
        ((ws.getD (i0 / 64) (0, 0)).2).testBit (j % 64) := by
      unfold planeBit
      rw [hw]
    show q2.testBit (j % 64) = _
    by_cases hbb : i0 % 64 = j % 64
    · rw [if_pos ⟨hw, hl, hbb⟩]
      cases t
      · rw [if_neg (by simp)] at hq
        rw [hq, testBit_clearBit _ _ (by omega)]
        simp [hbb]
      · rw [if_pos (by simp)] at hq
        rw [hq, testBit_orBit]
        simp [hbb]
    · rw [if_neg (fun hc => hbb hc.2.2), hview]
      cases t
      · rw [if_neg (by simp)] at hq
        rw [hq, testBit_clearBit _ _ (by omega)]
        simp [hbb]
      · rw [if_pos (by simp)] at hq
        rw [hq, testBit_orBit]
        simp [hbb]
  · next hmiss =>
    rw [if_neg (fun hc => hmiss ⟨hc.1, hc.2.1⟩)]

theorem kv_setUnchecked_planeBit_fst (v : Vec) (i0 : Nat) (val : Kleene)
    (j : Nat) :
    planeBit Prod.fst (v.setUnchecked i0 val).words j =
      if i0 / 64 = j / 64 ∧ i0 / 64 < v.words.length ∧ i0 % 64 = j % 64
      then kleeneValKnown val
      else planeBit Prod.fst v.words j := by
  simp only [setUnchecked, bitsLog2_eq, bitsMask_eq, shiftRight6, land63]
  cases val
  · exact planeBit_set_cond_fst v.words i0 j false _ _ rfl
  · exact planeBit_set_cond_fst v.words i0 j true _ _ rfl
  · exact planeBit_set_cond_fst v.words i0 j true _ _ rfl

theorem kv_setUnchecked_planeBit_snd (v : Vec) (i0 : Nat) (val : Kleene)
    (j : Nat) :
    planeBit Prod.snd (v.setUnchecked i0 val).words j =
      if i0 / 64 = j / 64 ∧ i0 / 64 < v.words.length ∧ i0 % 64 = j % 64
      then kleeneValValue val
      else planeBit Prod.snd v.words j := by
  simp only [setUnchecked, bitsLog2_eq, bitsMask_eq, shiftRight6, land63]
  cases val
  · exact planeBit_set_cond_snd v.words i0 j false _ _ rfl
  · exact planeBit_set_cond_snd v.words i0 j false _ _ rfl
  · exact planeBit_set_cond_snd v.words i0 j true _ _ rfl

theorem kv_setNat_eq (v : Vec) (i0 : Nat) (val : Kleene) :
    v.setNat i0 val =
      (if v.width ≤ i0 then
        (⟨i0 + 1, v.words ++ List.replicate
          (wordsNeeded (i0 + 1) - wordsNeeded v.width) (0, 0)⟩ : Vec)
      else v).setUnchecked i0 val := rfl

theorem kv_setNat_width {v : Vec} {i0 : Nat} (h : v.width ≤ i0)
    (val : Kleene) : (v.setNat i0 val).width = i0 + 1 := by
  rw [kv_setNat_eq, if_pos h]
  rfl

theorem kv_setNat_width_lt {v : Vec} {i0 : Nat} (h : i0 < v.width)
    (val : Kleene) : (v.setNat i0 val).width = v.width := by
  rw [kv_setNat_eq, if_neg (by omega)]
  rfl

theorem kv_setNat_planeBit_fst {v : Vec} (hwf : v.Wf) (i0 : Nat)
    (val : Kleene) (j : Nat) :
    planeBit Prod.fst (v.setNat i0 val).words j =
      if i0 = j then kleeneValKnown val
      else planeBit Prod.fst v.words j := by
  rw [kv_setNat_eq]
  split
  · next hgrow =>
    rw [kv_setUnchecked_planeBit_fst]
    show (if i0 / 64 = j / 64 ∧
        i0 / 64 < (v.words ++ List.replicate _ (0, 0)).length ∧
        i0 % 64 = j % 64 then _ else planeBit Prod.fst (v.words ++ _) j) = _
    have hlen : (v.words ++ List.replicate
        (wordsNeeded (i0 + 1) - wordsNeeded v.width) (0, 0)).length =
        wordsNeeded (i0 + 1) := by
      have := wordsNeeded_mono (show v.width ≤ i0 + 1 by omega)
      simp [hwf.1]
      omega
    have hi0 : i0 / 64 < wordsNeeded (i0 + 1) :=
      div64_lt_wordsNeeded (by omega)
    rw [planeBit_append_zeros _ rfl]
    split
    · next hc =>
      rw [if_pos (by omega)]
    · next hc =>
      rw [hlen] at hc
      rw [if_neg (by omega)]
  · next hin =>
    rw [kv_setUnchecked_planeBit_fst]
    have hi0 : i0 / 64 < v.words.length := by
      rw [hwf.1]
      exact div64_lt_wordsNeeded (by omega)
    split
    · next hc => rw [if_pos (by omega)]
    · next hc => rw [if_neg (by omega)]

theorem kv_setNat_planeBit_snd {v : Vec} (hwf : v.Wf) (i0 : Nat)
    (val : Kleene) (j : Nat) :
    planeBit Prod.snd (v.setNat i0 val).words j =
      if i0 = j then kleeneValValue val
      else planeBit Prod.snd v.words j := by
  rw [kv_setNat_eq]
  split
  · next hgrow =>
    rw [kv_setUnchecked_planeBit_snd]
    show (if i0 / 64 = j / 64 ∧
        i0 / 64 < (v.words ++ List.replicate _ (0, 0)).length ∧
        i0 % 64 = j % 64 then _ else planeBit Prod.snd (v.words ++ _) j) = _
    have hlen : (v.words ++ List.replicate
        (wordsNeeded (i0 + 1) - wordsNeeded v.width) (0, 0)).length =
        wordsNeeded (i0 + 1) := by
      have := wordsNeeded_mono (show v.width ≤ i0 + 1 by omega)
      simp [hwf.1]
      omega
    have hi0 : i0 / 64 < wordsNeeded (i0 + 1) :=
      div64_lt_wordsNeeded (by omega)
    rw [planeBit_append_zeros _ rfl]
    split
    · next hc =>
      rw [if_pos (by omega)]
    · next hc =>
      rw [hlen] at hc
      rw [if_neg (by omega)]
  · next hin =>
    rw [kv_setUnchecked_planeBit_snd]
    have hi0 : i0 / 64 < v.words.length := by
      rw [hwf.1]
      exact div64_lt_wordsNeeded (by omega)
    split
    · next hc => rw [if_pos (by omega)]
    · next hc => rw [if_neg (by omega)]

theorem kv_setNat_length {v : Vec} (hwf : v.Wf) (i0 : Nat) (val : Kleene) :
    (v.setNat i0 val).words.length = wordsNeeded (v.setNat i0 val).width := by
  rw [kv_setNat_eq]
  split
  · next hgrow =>
    show ((v.words ++ _).set _ _).length = wordsNeeded (i0 + 1)
    have := wordsNeeded_mono (show v.width ≤ i0 + 1 by omega)
    simp [hwf.1]
    omega
  · next hin =>
    show (v.words.set _ _).length = wordsNeeded v.width
    simp [hwf.1]

theorem kv_wf_setNat {v : Vec} (hwf : v.Wf) (i0 : Nat) (val : Kleene) :
    (v.setNat i0 val).Wf := by
  refine ⟨kv_setNat_length hwf i0 val, ?_, ?_⟩
  · intro i hi
    have hw : (v.setNat i0 val).width =
        if v.width ≤ i0 then i0 + 1 else v.width := by
      split
      · next hh => exact kv_setNat_width hh val
      · next hh => exact kv_setNat_width_lt (by omega) val
    rw [kv_setNat_planeBit_fst hwf, kv_setNat_planeBit_snd hwf]
    have hne : i0 ≠ i := by
      split at hw <;> omega
    have hge : v.width ≤ i := by
      split at hw <;> omega
    rw [if_neg hne, if_neg hne]
    exact hwf.2.1 i hge
  · intro i hi
    rw [kv_setNat_planeBit_snd hwf] at hi
    rw [kv_setNat_planeBit_fst hwf]
    split at hi
    · next heq =>
      rw [if_pos heq]
      revert hi
      cases val <;> decide
    · next hne =>
      rw [if_neg hne]
      exact hwf.2.2 i hi

theorem kv_setNat_get_self {v : Vec} (hwf : v.Wf) (i0 : Nat) (val : Kleene) :
    (v.setNat i0 val).getUnchecked i0 = val := by
  rw [kv_getUnchecked_view, kv_setNat_planeBit_fst hwf, kv_setNat_planeBit_snd hwf,
    if_pos rfl, if_pos rfl]
  exact kleeneFromBool2_valBits val

theorem kv_setNat_get_other {v : Vec} (hwf : v.Wf) {i0 j : Nat}
    (hne : i0 ≠ j) (val : Kleene) :
    (v.setNat i0 val).getUnchecked j = v.getUnchecked j := by
  rw [kv_getUnchecked_view, kv_getUnchecked_view, kv_setNat_planeBit_fst hwf,
    kv_setNat_planeBit_snd hwf, if_neg hne, if_neg hne]

theorem kv_getU_ge {v : Vec} (hwf : v.Wf) {j : Nat} (hj : v.width ≤ j) :
    v.getUnchecked j = .Unknown := by
  rw [kv_getUnchecked_view, (hwf.2.1 j hj).1, (hwf.2.1 j hj).2]
  rfl

theorem kv_get_coe_lt {v : Vec} {j : Nat} (hj : j < v.width) :
    v.Get (j : Int) = .ok (v.getUnchecked j) := by
  unfold Get
  rw [if_neg (by push_cast; omega)]
  norm_num

theorem kv_get_coe_ge {v : Vec} {j : Nat} (hj : v.width ≤ j) :
    v.Get (j : Int) = .error .ErrOutOfBounds := by
  unfold Get
  rw [if_pos (by push_cast; omega)]

theorem kv_not_planeBit_fst (v : Vec) (j : Nat) :
    planeBit Prod.fst v.Not.words j = planeBit Prod.fst v.words j := by
  show planeBit Prod.fst
    (v.words.map (fun p => (p.1, p.1 &&& not64 p.2))) j = _
  rw [planeBit_map_fix _ _ (by simp)]
  rfl

theorem kv_not_planeBit_snd (v : Vec) (j : Nat) :
    planeBit Prod.snd v.Not.words j =
      (planeBit Prod.fst v.words j && !planeBit Prod.snd v.words j) := by
  show planeBit Prod.snd
    (v.words.map (fun p => (p.1, p.1 &&& not64 p.2))) j = _
  rw [planeBit_map_fix _ _ (by simp)]
  show ((v.words.getD (j / 64) (0, 0)).1 &&&
    not64 ((v.words.getD (j / 64) (0, 0)).2)).testBit (j % 64) = _
  rw [Nat.testBit_land, testBit_not64 _ (by omega)]
  rfl

theorem kv_wf_not {v : Vec} (hwf : v.Wf) : v.Not.Wf := by
  refine ⟨?_, ?_, ?_⟩
  · show (v.words.map _).length = wordsNeeded v.width
    simp [hwf.1]
  · intro i hi
    have h := hwf.2.1 i hi
    constructor
    · rw [kv_not_planeBit_fst]
      exact h.1
    · rw [kv_not_planeBit_snd, h.1]
      rfl
  · intro i hi
    rw [kv_not_planeBit_snd] at hi
    rw [kv_not_planeBit_fst]
    rcases hfst : planeBit Prod.fst v.words i
    · rw [hfst] at hi
      simp at hi
    · rfl

theorem and_eq_some {v o : Vec} (hw : v.width = o.width) :
    v.And o = some ⟨v.width, (List.range v.words.length).map (fun k =>
      let a := v.words.getD k (0, 0)
      let b := o.words.getD k (0, 0)
      let resultTrue := (a.1 &&& a.2) &&& (b.1 &&& b.2)
      let resultFalse := (a.1 &&& not64 a.2) ||| (b.1 &&& not64 b.2)
      (resultTrue ||| resultFalse, resultTrue))⟩ := by
  unfold And checkWidth
  rw [if_pos (by simp [hw])]

theorem and_none {v o : Vec} (hw : v.width ≠ o.width) : v.And o = none := by
  unfold And checkWidth
  rw [if_neg (by simp [hw])]

theorem or_eq_some {v o : Vec} (hw : v.width = o.width) :
    v.Or o = some ⟨v.width, (List.range v.words.length).map (fun k =>
      let a := v.words.getD k (0, 0)
      let b := o.words.getD k (0, 0)
      let resultTrue := (a.1 &&& a.2) ||| (b.1 &&& b.2)
      let resultFalse := (a.1 &&& not64 a.2) &&& (b.1 &&& not64 b.2)
      (resultTrue ||| resultFalse, resultTrue))⟩ := by
  unfold Or checkWidth
  rw [if_pos (by simp [hw])]

theorem or_none {v o : Vec} (hw : v.width ≠ o.width) : v.Or o = none := by
  unfold Or checkWidth
  rw [if_neg (by simp [hw])]

theorem andWords_planeBit_fst (va ob : List (Nat × Nat))
    (hlen : ob.length ≤ va.length) (j : Nat) :
    planeBit Prod.fst ((List.range va.length).map (fun k =>
      let a := va.getD k (0, 0)
      let b := ob.getD k (0, 0)
      let resultTrue := (a.1 &&& a.2) &&& (b.1 &&& b.2)
      let resultFalse := (a.1 &&& not64 a.2) ||| (b.1 &&& not64 b.2)
      (resultTrue ||| resultFalse, resultTrue))) j =
      ((planeBit Prod.fst va j && planeBit Prod.snd va j &&
        (planeBit Prod.fst ob j && planeBit Prod.snd ob j)) ||
       ((planeBit Prod.fst va j && !planeBit Prod.snd va j) ||
        (planeBit Prod.fst ob j && !planeBit Prod.snd ob j))) := by
  rw [planeBit_range_map _ rfl]
  split
  · next hk =>
    show ((((va.getD (j / 64) (0, 0)).1 &&& (va.getD (j / 64) (0, 0)).2) &&&
        ((ob.getD (j / 64) (0, 0)).1 &&& (ob.getD (j / 64) (0, 0)).2)) |||
        (((va.getD (j / 64) (0, 0)).1 &&&
            not64 ((va.getD (j / 64) (0, 0)).2)) |||
         ((ob.getD (j / 64) (0, 0)).1 &&&
            not64 ((ob.getD (j / 64) (0, 0)).2)))).testBit (j % 64) = _
    rw [Nat.testBit_lor, Nat.testBit_land, Nat.testBit_land,
      Nat.testBit_land, Nat.testBit_lor, Nat.testBit_land,
      Nat.testBit_land, testBit_not64 _ (by omega),
      testBit_not64 _ (by omega)]
    rfl
  · next hk =>
    rw [planeBit_of_le Prod.fst rfl va (by omega),
      planeBit_of_le Prod.snd rfl va (by omega),
      planeBit_of_le Prod.fst rfl ob (by omega),
      planeBit_of_le Prod.snd rfl ob (by omega)]
    rfl

theorem andWords_planeBit_snd (va ob : List (Nat × Nat))
    (hlen : ob.length ≤ va.length) (j : Nat) :
    planeBit Prod.snd ((List.range va.length).map (fun k =>
      let a := va.getD k (0, 0)
      let b := ob.getD k (0, 0)
      let resultTrue := (a.1 &&& a.2) &&& (b.1 &&& b.2)
      let resultFalse := (a.1 &&& not64 a.2) ||| (b.1 &&& not64 b.2)
      (resultTrue ||| resultFalse, resultTrue))) j =
      (planeBit Prod.fst va j && planeBit Prod.snd va j &&
        (planeBit Prod.fst ob j && planeBit Prod.snd ob j)) := by
  rw [planeBit_range_map _ rfl]
  split
  · next hk =>
    show (((va.getD (j / 64) (0, 0)).1 &&& (va.getD (j / 64) (0, 0)).2) &&&
        ((ob.getD (j / 64) (0, 0)).1 &&&
          (ob.getD (j / 64) (0, 0)).2)).testBit (j % 64) = _
    rw [Nat.testBit_land, Nat.testBit_land, Nat.testBit_land]
    rfl
  · next hk =>
    rw [planeBit_of_le Prod.fst rfl va (by omega),
      planeBit_of_le Prod.snd rfl va (by omega),
      planeBit_of_le Prod.fst rfl ob (by omega),
      planeBit_of_le Prod.snd rfl ob (by omega)]
    rfl

theorem orWords_planeBit_fst (va ob : List (Nat × Nat))
    (hlen : ob.length ≤ va.length) (j : Nat) :
    planeBit Prod.fst ((List.range va.length).map (fun k =>
      let a := va.getD k (0, 0)
      let b := ob.getD k (0, 0)
      let resultTrue := (a.1 &&& a.2) ||| (b.1 &&& b.2)
      let resultFalse := (a.1 &&& not64 a.2) &&& (b.1 &&& not64 b.2)
      (resultTrue ||| resultFalse, resultTrue))) j =
      ((planeBit Prod.fst va j && planeBit Prod.snd va j ||
        planeBit Prod.fst ob j && planeBit Prod.snd ob j) ||
       ((planeBit Prod.fst va j && !planeBit Prod.snd va j) &&
        (planeBit Prod.fst ob j && !planeBit Prod.snd ob j))) := by
  rw [planeBit_range_map _ rfl]
  split
  · next hk =>
    show ((((va.getD (j / 64) (0, 0)).1 &&& (va.getD (j / 64) (0, 0)).2) |||
        ((ob.getD (j / 64) (0, 0)).1 &&& (ob.getD (j / 64) (0, 0)).2)) |||
        (((va.getD (j / 64) (0, 0)).1 &&&
            not64 ((va.getD (j / 64) (0, 0)).2)) &&&
         ((ob.getD (j / 64) (0, 0)).1 &&&
            not64 ((ob.getD (j / 64) (0, 0)).2)))).testBit (j % 64) = _
    rw [Nat.testBit_lor, Nat.testBit_lor, Nat.testBit_land,
      Nat.testBit_land, Nat.testBit_land, Nat.testBit_land,
      Nat.testBit_land, testBit_not64 _ (by omega),
      testBit_not64 _ (by omega)]
    rfl
  · next hk =>
    rw [planeBit_of_le Prod.fst rfl va (by omega),
      planeBit_of_le Prod.snd rfl va (by omega),
      planeBit_of_le Prod.fst rfl ob (by omega),
      planeBit_of_le Prod.snd rfl ob (by omega)]
    rfl

theorem orWords_planeBit_snd (va ob : List (Nat × Nat))
    (hlen : ob.length ≤ va.length) (j : Nat) :
    planeBit Prod.snd ((List.range va.length).map (fun k =>
      let a := va.getD k (0, 0)
      let b := ob.getD k (0, 0)
      let resultTrue := (a.1 &&& a.2) ||| (b.1 &&& b.2)
      let resultFalse := (a.1 &&& not64 a.2) &&& (b.1 &&& not64 b.2)
      (resultTrue ||| resultFalse, resultTrue))) j =
      (planeBit Prod.fst va j && planeBit Prod.snd va j ||
        planeBit Prod.fst ob j && planeBit Prod.snd ob j) := by
  rw [planeBit_range_map _ rfl]
  split
  · next hk =>
    show (((va.getD (j / 64) (0, 0)).1 &&& (va.getD (j / 64) (0, 0)).2) |||
        ((ob.getD (j / 64) (0, 0)).1 &&&
          (ob.getD (j / 64) (0, 0)).2)).testBit (j % 64) = _
    rw [Nat.testBit_lor, Nat.testBit_land, Nat.testBit_land]
    rfl
  · next hk =>
    rw [planeBit_of_le Prod.fst rfl va (by omega),
      planeBit_of_le Prod.snd rfl va (by omega),
      planeBit_of_le Prod.fst rfl ob (by omega),
      planeBit_of_le Prod.snd rfl ob (by omega)]
    rfl

theorem kv_wf_and {v o : Vec} (hv : v.Wf) (ho : o.Wf) {r : Vec}
    (hr : v.And o = some r) : r.Wf := by
  by_cases hw : v.width = o.width
  · rw [and_eq_some hw] at hr
    injection hr with hr
    subst hr
    have hlen2 : o.words.length ≤ v.words.length := by
      rw [hv.1, ho.1, hw]
    refine ⟨?_, ?_, ?_⟩
    · show ((List.range v.words.length).map _).length = wordsNeeded v.width
      simp [hv.1]
    · intro i hi
      have hvb := hv.2.1 i hi
      have hob := ho.2.1 i (by rw [← hw]; exact hi)
      constructor
      · rw [andWords_planeBit_fst _ _ hlen2, hvb.1, hvb.2, hob.1, hob.2]
        rfl
      · rw [andWords_planeBit_snd _ _ hlen2, hvb.1, hvb.2, hob.1, hob.2]
        rfl
    · intro i hi
      rw [andWords_planeBit_snd _ _ hlen2] at hi
      rw [andWords_planeBit_fst _ _ hlen2, hi]
      rfl
  · rw [and_none hw] at hr
    cases hr

theorem kv_wf_or {v o : Vec} (hv : v.Wf) (ho : o.Wf) {r : Vec}
    (hr : v.Or o = some r) : r.Wf := by
  by_cases hw : v.width = o.width
  · rw [or_eq_some hw] at hr
    injection hr with hr
    subst hr
    have hlen2 : o.words.length ≤ v.words.length := by
      rw [hv.1, ho.1, hw]
    refine ⟨?_, ?_, ?_⟩
    · show ((List.range v.words.length).map _).length = wordsNeeded v.width
      simp [hv.1]
    · intro i hi
      have hvb := hv.2.1 i hi
      have hob := ho.2.1 i (by rw [← hw]; exact hi)
      constructor
      · rw [orWords_planeBit_fst _ _ hlen2, hvb.1, hvb.2, hob.1, hob.2]
        rfl
      · rw [orWords_planeBit_snd _ _ hlen2, hvb.1, hvb.2, hob.1, hob.2]
        rfl
    · intro i hi
      rw [orWords_planeBit_snd _ _ hlen2] at hi
      rw [orWords_planeBit_fst _ _ hlen2, hi]
      rfl
  · rw [or_none hw] at hr
    cases hr

theorem kv_wf_implies {v o : Vec} (hv : v.Wf) (ho : o.Wf) {r : Vec}
    (hr : v.Implies o = some r) : r.Wf :=
  kv_wf_or (kv_wf_not hv) ho hr

end Kleene.Vec

theorem fromBool2_both_iff : ∀ p n : Bool,
    fromBool2 p n = .Both ↔ (p = true ∧ n = true) := by decide

/-- A word-pair list whose planes never overlap (the shared `IsConsistent`
test) has no packed position with both bits set. -/
theorem consistent_no_both (ws : List (Nat × Nat))
    (hc : ws.all (fun p => p.1 &&& p.2 == 0) = true) (i : Nat) :
    ¬(planeBit Prod.fst ws i = true ∧ planeBit Prod.snd ws i = true) := by
  rintro ⟨h1, h2⟩
  unfold planeBit at h1 h2
  by_cases hl : i / 64 < ws.length
  · have hmem : ws.getD (i / 64) (0, 0) ∈ ws := by
      rw [List.getD_eq_getElem?_getD, List.getElem?_eq_getElem hl]
      exact List.getElem_mem _
    have hz := List.all_eq_true.mp hc _ hmem
    have hz2 : (ws.getD (i / 64) (0, 0)).1 &&&
        (ws.getD (i / 64) (0, 0)).2 = 0 := by
      simpa using hz
    have := congrArg (fun x => x.testBit (i % 64)) hz2
    simp only [Nat.testBit_land, Nat.zero_testBit] at this
    rw [h1, h2] at this
    cases this
  · rw [getD_of_le _ _ (Nat.le_of_not_lt hl)] at h1
    simp at h1

/-- The value decoded from one bit position of a pos/neg word pair. -/
def decodePlaneBit (p n : Nat) (b : Nat) : Belnap.Value :=
  fromBool2 (p.testBit b) (n.testBit b)

theorem Attic.BelnapVec.truncate_width {v : BelnapVec} {n : Nat}
    (h : n < v.width) : (v.Truncate n).width = n := by
  unfold Truncate
  rw [if_neg (by omega)]
  rfl

theorem Attic.BelnapVec.truncate_length {v : BelnapVec} (hwf : v.Wf)
    {n : Nat} (h : n < v.width) :
    (v.Truncate n).words.length = wordsNeeded n := by
  unfold Truncate
  rw [if_neg (by omega)]
  show (maskTailWords n _).length = _
  rw [maskTailWords_length, List.length_take, hwf.1]
  have := wordsNeeded_mono (Nat.le_of_lt h)
  omega

theorem Kleene.Vec.kv_truncate_width {v : Vec} {n : Nat}
    (h : n < v.width) : (v.Truncate n).width = n := by
  unfold Truncate
  rw [if_neg (by omega)]
  rfl

theorem Kleene.Vec.kv_truncate_length {v : Vec} (hwf : v.Wf)
    {n : Nat} (h : n < v.width) :
    (v.Truncate n).words.length = wordsNeeded n := by
  unfold Truncate
  rw [if_neg (by omega)]
  show (maskTailWords n _).length = _
  rw [maskTailWords_length, List.length_take, hwf.1]
  have := wordsNeeded_mono (Nat.le_of_lt h)
  omega

theorem Attic.BelnapVec.set_coe (v : BelnapVec) (i : Nat)
    (val : Belnap.Value) : v.Set (i : Int) val = some (v.setNat i val) := by
  unfold Set
  rw [if_neg (by omega)]
  norm_num

theorem Kleene.Vec.kv_set_coe (v : Vec) (i : Nat) (val : Kleene) :
    v.Set (i : Int) val = some (v.setNat i val) := by
  unfold Set
  rw [if_neg (by omega)]
  norm_num

/-- C1: the claim states that the binary operations of BOTH packed vector
types accept operands of any widths and return a `max`-width result.  The
kleene package's `Vec.And`/`Vec.Or`/`Vec.Implies` instead fault (panic via
`checkWidth`) whenever the operand widths differ — here, on the same
`AllTrue(10)`/`AllFalse(100)` shape its own test
`TestVecBinopMismatchedWidths` exercises — so the claim fails on this code
even though the package's own tests demand it. -/
theorem claim_C1_mismatched_width_fault :
    (Kleene.Vec.AllTrue 10).And (Kleene.Vec.AllFalse 100) = none ∧
    (Kleene.Vec.AllTrue 10).Or (Kleene.Vec.AllFalse 100) = none ∧
    (Kleene.Vec.AllTrue 10).Implies (Kleene.Vec.AllFalse 100) = none := by
  decide

/-- C2: the word-parallel helpers `andWord`, `orWord`, `notWord` and
`mergeWord` are bit-for-bit the scalar 4-valued operators: decoding any bit
position `b < 64` of their outputs yields the scalar `And`/`Or`/`Not`/`Merge`
of the values decoded from bit `b` of the machine-word inputs. -/
theorem claim_C2_word_ops_refine_scalar :
    ∀ aP aN bP bN : Nat, aP < 2 ^ 64 → aN < 2 ^ 64 → bP < 2 ^ 64 →
    bN < 2 ^ 64 → ∀ b : Nat, b < 64 →
    decodePlaneBit (andWord aP aN bP bN).1 (andWord aP aN bP bN).2 b =
      (decodePlaneBit aP aN b).And (decodePlaneBit bP bN b) ∧
    decodePlaneBit (orWord aP aN bP bN).1 (orWord aP aN bP bN).2 b =
      (decodePlaneBit aP aN b).Or (decodePlaneBit bP bN b) ∧
    decodePlaneBit (notWord aP aN).1 (notWord aP aN).2 b =
      (decodePlaneBit aP aN b).Not ∧
    decodePlaneBit (mergeWord aP aN bP bN).1 (mergeWord aP aN bP bN).2 b =
      (decodePlaneBit aP aN b).Merge (decodePlaneBit bP bN b) := by
  intro aP aN bP bN h1 h2 h3 h4 b hb
  unfold decodePlaneBit andWord orWord notWord mergeWord
  refine ⟨?_, ?_, ?_, ?_⟩
  · show fromBool2 ((aP &&& bP).testBit b) ((aN ||| bN).testBit b) = _
    rw [Nat.testBit_land, Nat.testBit_lor]
    exact fromBool2_and _ _ _ _
  · show fromBool2 ((aP ||| bP).testBit b) ((aN &&& bN).testBit b) = _
    rw [Nat.testBit_lor, Nat.testBit_land]
    exact fromBool2_or _ _ _ _
  · exact fromBool2_not _ _
  · show fromBool2 ((aP ||| bP).testBit b) ((aN ||| bN).testBit b) = _
    rw [Nat.testBit_lor, Nat.testBit_lor]
    exact fromBool2_merge _ _ _ _

/-- Witness for C2 at concrete machine words and a concrete bit position. -/
theorem claim_C2_word_ops_refine_scalar_witness :
    decodePlaneBit (andWord 5 2 3 0).1 (andWord 5 2 3 0).2 1 =
      (decodePlaneBit 5 2 1).And (decodePlaneBit 3 0 1) ∧
    decodePlaneBit (orWord 5 2 3 0).1 (orWord 5 2 3 0).2 1 =
      (decodePlaneBit 5 2 1).Or (decodePlaneBit 3 0 1) ∧
    decodePlaneBit (notWord 5 2).1 (notWord 5 2).2 1 =
      (decodePlaneBit 5 2 1).Not ∧
    decodePlaneBit (mergeWord 5 2 3 0).1 (mergeWord 5 2 3 0).2 1 =
      (decodePlaneBit 5 2 1).Merge (decodePlaneBit 3 0 1) :=
  claim_C2_word_ops_refine_scalar 5 2 3 0 (by norm_num) (by norm_num)
    (by norm_num) (by norm_num) 1 (by norm_num)

/-- C8: the Both-involving entries of the scalar 4-valued truth tables, the
role-swapped duals for Or, and `Not(Both) = Both`. -/
theorem claim_C8_both_truth_table_entries :
    Belnap.Value.True.And .Both = .Both ∧
    Belnap.Value.False.And .Both = .False ∧
    Belnap.Value.Unknown.And .Both = .False ∧
    Belnap.Value.False.Or .Both = .Both ∧
    Belnap.Value.True.Or .Both = .True ∧
    Belnap.Value.Unknown.Or .Both = .True ∧
    Belnap.Value.Both.Not = .Both := by
  decide

/-- C9: the scalar Merge is commutative and associative with identity
Unknown and absorbing element Both, `True Merge False = Both`, and
`mergeWord` realizes the same operator at every packed bit position. -/
theorem claim_C9_merge_laws :
    (∀ a b : Belnap.Value, a.Merge b = b.Merge a) ∧
    (∀ a b c : Belnap.Value, (a.Merge b).Merge c = a.Merge (b.Merge c)) ∧
    (∀ x : Belnap.Value, Belnap.Value.Unknown.Merge x = x) ∧
    (∀ x : Belnap.Value, Belnap.Value.Both.Merge x = .Both) ∧
    Belnap.Value.True.Merge .False = .Both ∧
    (∀ aP aN bP bN b : Nat,
      decodePlaneBit (mergeWord aP aN bP bN).1 (mergeWord aP aN bP bN).2 b =
        (decodePlaneBit aP aN b).Merge (decodePlaneBit bP bN b)) := by
  refine ⟨by decide, by decide, by decide, by decide, by decide, ?_⟩
  intro aP aN bP bN b
  unfold decodePlaneBit mergeWord
  show fromBool2 ((aP ||| bP).testBit b) ((aN ||| bN).testBit b) = _
  rw [Nat.testBit_lor, Nat.testBit_lor]
  exact fromBool2_merge _ _ _ _

/-- C6: for all three packed vector types, `Get(i)` returns `ErrOutOfBounds`
exactly when `i < 0` or `i >= Width()` (`Get` is a pure function of the
vector in this embedding, so it cannot mutate); `Set` with a negative index
is a fault (`none`, a Go panic), and `Set` of `Both` on the 3-valued attic
vector is a fault, rather than a returned error value. -/
theorem claim_C6_get_error_set_faults :
    (∀ (v : Attic.BelnapVec) (i : Int),
      v.Get i = .error .ErrOutOfBounds ↔ (i < 0 ∨ (v.width : Int) ≤ i)) ∧
    (∀ (v : Attic.KleeneVec) (i : Int),
      v.Get i = .error .ErrOutOfBounds ↔ (i < 0 ∨ (v.width : Int) ≤ i)) ∧
    (∀ (v : Kleene.Vec) (i : Int),
      v.Get i = .error .ErrOutOfBounds ↔ (i < 0 ∨ (v.width : Int) ≤ i)) ∧
    (∀ (v : Attic.BelnapVec) (i : Int) (val : Belnap.Value), i < 0 →
      v.Set i val = none) ∧
    (∀ (v : Attic.KleeneVec) (i : Int) (val : Belnap.Value), i < 0 →
      v.Set i val = none) ∧
    (∀ (v : Kleene.Vec) (i : Int) (val : Kleene), i < 0 →
      v.Set i val = none) ∧
    (∀ (v : Attic.KleeneVec) (i : Int), v.Set i .Both = none) := by
  refine ⟨?_, ?_, ?_, ?_, ?_, ?_, ?_⟩
  · intro v i
    unfold Attic.BelnapVec.Get
    split
    · next hc => simp [hc]
    · next hc => simp [hc]
  · intro v i
    unfold Attic.KleeneVec.Get
    split
    · next hc => simp [hc]
    · next hc => simp [hc]
  · intro v i
    unfold Kleene.Vec.Get
    split
    · next hc => simp [hc]
    · next hc => simp [hc]
  · intro v i val h
    unfold Attic.BelnapVec.Set
    rw [if_pos h]
  · intro v i val h
    unfold Attic.KleeneVec.Set
    rw [if_pos h]
  · intro v i val h
    unfold Kleene.Vec.Set
    rw [if_pos h]
  · intro v i
    unfold Attic.KleeneVec.Set
    split
    · rfl
    · rw [if_pos rfl]

/-- Witness for C6 at concrete vectors and indices. -/
theorem claim_C6_get_error_set_faults_witness :
    ((Attic.BelnapVec.NewBelnapVec 3).Get 5 = .error .ErrOutOfBounds ↔
      ((5 : Int) < 0 ∨ ((Attic.BelnapVec.NewBelnapVec 3).width : Int) ≤ 5)) ∧
    (Attic.BelnapVec.NewBelnapVec 3).Set (-1) .True = none ∧
    (Attic.KleeneVec.NewKleeneVec 3).Set (-2) .False = none ∧
    (Kleene.Vec.NewVec 3).Set (-1) .True = none ∧
    (Attic.KleeneVec.NewKleeneVec 3).Set 1 .Both = none := by
  have h := claim_C6_get_error_set_faults
  exact ⟨h.1 (Attic.BelnapVec.NewBelnapVec 3) 5,
    h.2.2.2.1 (Attic.BelnapVec.NewBelnapVec 3) (-1) .True (by norm_num),
    h.2.2.2.2.1 (Attic.KleeneVec.NewKleeneVec 3) (-2) .False (by norm_num),
    h.2.2.2.2.2.1 (Kleene.Vec.NewVec 3) (-1) .True (by norm_num),
    h.2.2.2.2.2.2 (Attic.KleeneVec.NewKleeneVec 3) 1⟩

/-- C7: the embedding of a 3-valued attic vector into the 4-valued algebra
is total (a Lean function), injective, and never yields `Both` at any
readable index of a consistent vector; the reverse projection succeeds
exactly when the 4-valued vector `IsConsistent()`; and projecting the
embedding of a consistent 3-valued vector back succeeds and returns the very
same vector (hence equal at every index). -/
theorem claim_C7_cross_conversion :
    (∀ k1 k2 : Attic.KleeneVec,
      Attic.BelnapVecFromKleeneVec k1 = Attic.BelnapVecFromKleeneVec k2 →
        k1 = k2) ∧
    (∀ k : Attic.KleeneVec, k.IsConsistent = true →
      ∀ (i : Int) (val : Belnap.Value),
        (Attic.BelnapVecFromKleeneVec k).Get i = .ok val → val ≠ .Both) ∧
    (∀ b : Attic.BelnapVec, (b.ToKleeneVec).isSome = b.IsConsistent) ∧
    (∀ k : Attic.KleeneVec, k.IsConsistent = true →
      (Attic.BelnapVecFromKleeneVec k).ToKleeneVec = some k) := by
  refine ⟨?_, ?_, ?_, ?_⟩
  · intro k1 k2 h
    obtain ⟨w1, ws1⟩ := k1
    obtain ⟨w2, ws2⟩ := k2
    simp only [Attic.BelnapVecFromKleeneVec, Attic.BelnapVec.mk.injEq] at h
    rw [Attic.KleeneVec.mk.injEq]
    exact h
  · intro k hc i val hget hboth
    subst hboth
    unfold Attic.BelnapVec.Get at hget
    split at hget
    · cases hget
    · injection hget with hget
      rw [Attic.BelnapVec.getUnchecked_view] at hget
      have hb := (fromBool2_both_iff _ _).mp hget
      exact consistent_no_both k.words hc i.toNat hb
  · intro b
    unfold Attic.BelnapVec.ToKleeneVec
    split
    · next hc => simp [hc]
    · next hc => simp [Bool.eq_false_iff.mpr hc]
  · intro k hc
    unfold Attic.BelnapVec.ToKleeneVec
    rw [if_pos
      (show (Attic.BelnapVecFromKleeneVec k).IsConsistent = true from hc)]
    obtain ⟨w, ws⟩ := k
    rfl

/-- Witness for C7 at a concrete consistent 3-valued vector. -/
theorem claim_C7_cross_conversion_witness :
    (Attic.BelnapVecFromKleeneVec
      ((Attic.KleeneVec.NewKleeneVec 3).setNat 0 .True)).ToKleeneVec =
      some ((Attic.KleeneVec.NewKleeneVec 3).setNat 0 .True) ∧
    ∀ val : Belnap.Value,
      (Attic.BelnapVecFromKleeneVec
        ((Attic.KleeneVec.NewKleeneVec 3).setNat 0 .True)).Get 1 =
        .ok val → val ≠ .Both := by
  have h := claim_C7_cross_conversion
  exact ⟨h.2.2.2 _ (by decide), fun val => h.2.1 _ (by decide) 1 val⟩

/-- C10: a zero-width vector of either logic vacuously satisfies all bulk
queries (it is simultaneously all-true and all-false) and all population
counts are zero. -/
theorem claim_C10_zero_width_queries :
    (∀ v : Attic.BelnapVec, v.Wf → v.width = 0 →
      v.IsAllTrue = true ∧ v.IsAllFalse = true ∧ v.IsAllDetermined = true ∧
      v.CountTrue = 0 ∧ v.CountFalse = 0 ∧ v.CountBoth = 0 ∧
      v.CountUnknown = 0) ∧
    (∀ v : Kleene.Vec, v.Wf → v.width = 0 →
      v.IsAllTrue = true ∧ v.IsAllFalse = true ∧ v.IsAllKnown = true ∧
      v.CountTrue = 0 ∧ v.CountFalse = 0 ∧ v.CountUnknown = 0) := by
  constructor
  · intro v hwf h0
    have hlen : v.words.length = 0 := by
      rw [hwf.1, h0]
      decide
    have hnil : v.words = [] := List.length_eq_zero.mp hlen
    obtain ⟨w, ws⟩ := v
    simp only at h0 hnil
    subst h0
    subst hnil
    decide
  · intro v hwf h0
    have hlen : v.words.length = 0 := by
      rw [hwf.1, h0]
      decide
    have hnil : v.words = [] := List.length_eq_zero.mp hlen
    obtain ⟨w, ws⟩ := v
    simp only at h0 hnil
    subst h0
    subst hnil
    decide

/-- Witness for C10 at the concrete zero-width vectors. -/
theorem claim_C10_zero_width_queries_witness :
    (Attic.BelnapVec.NewBelnapVec 0).IsAllTrue = true ∧
    (Attic.BelnapVec.NewBelnapVec 0).IsAllFalse = true ∧
    (Attic.BelnapVec.NewBelnapVec 0).CountUnknown = 0 ∧
    (Kleene.Vec.NewVec 0).IsAllKnown = true ∧
    (Kleene.Vec.NewVec 0).CountUnknown = 0 := by
  have h := claim_C10_zero_width_queries
  have h1 := h.1 (Attic.BelnapVec.NewBelnapVec 0)
    (Attic.BelnapVec.wf_new 0) rfl
  have h2 := h.2 (Kleene.Vec.NewVec 0) (Kleene.Vec.kv_wf_new 0) rfl
  exact ⟨h1.1, h1.2.1, h1.2.2.2.2.2.2, h2.2.2.1, h2.2.2.2.2.2⟩

/-- C4: for a well-formed vector of either logic of width `w`, any legal
value, and any index `i >= w`, `Set(i, val)` grows the vector to width
`i+1`, reads back `val` at `i` with no error, reads `Unknown` at every new
interior index in `[w, i)`, and leaves every index below `w` unchanged. -/
theorem claim_C4_set_auto_grow :
    (∀ (v : Attic.BelnapVec) (i : Nat) (val : Belnap.Value), v.Wf →
      v.width ≤ i →
      v.Set (i : Int) val = some (v.setNat i val) ∧
      (v.setNat i val).width = i + 1 ∧
      (v.setNat i val).Get (i : Int) = .ok val ∧
      (∀ j : Nat, v.width ≤ j → j < i →
        (v.setNat i val).Get (j : Int) = .ok .Unknown) ∧
      (∀ j : Nat, j < v.width →
        (v.setNat i val).Get (j : Int) = v.Get (j : Int))) ∧
    (∀ (v : Kleene.Vec) (i : Nat) (val : Kleene), v.Wf → v.width ≤ i →
      v.Set (i : Int) val = some (v.setNat i val) ∧
      (v.setNat i val).width = i + 1 ∧
      (v.setNat i val).Get (i : Int) = .ok val ∧
      (∀ j : Nat, v.width ≤ j → j < i →
        (v.setNat i val).Get (j : Int) = .ok .Unknown) ∧
      (∀ j : Nat, j < v.width →
        (v.setNat i val).Get (j : Int) = v.Get (j : Int))) := by
  constructor
  · intro v i val hwf hgrow
    have hw : (v.setNat i val).width = i + 1 :=
      Attic.BelnapVec.setNat_width hgrow val
    refine ⟨Attic.BelnapVec.set_coe v i val, hw, ?_, ?_, ?_⟩
    · rw [Attic.BelnapVec.get_coe_lt (by omega),
        Attic.BelnapVec.setNat_get_self hwf]
    · intro j hj1 hj2
      rw [Attic.BelnapVec.get_coe_lt (by omega),
        Attic.BelnapVec.setNat_get_other hwf (by omega),
        Attic.BelnapVec.getU_ge hwf hj1]
    · intro j hj
      rw [Attic.BelnapVec.get_coe_lt (by omega),
        Attic.BelnapVec.get_coe_lt (by omega),
        Attic.BelnapVec.setNat_get_other hwf (by omega)]
  · intro v i val hwf hgrow
    have hw : (v.setNat i val).width = i + 1 :=
      Kleene.Vec.kv_setNat_width hgrow val
    refine ⟨Kleene.Vec.kv_set_coe v i val, hw, ?_, ?_, ?_⟩
    · rw [Kleene.Vec.kv_get_coe_lt (by omega),
        Kleene.Vec.kv_setNat_get_self hwf]
    · intro j hj1 hj2
      rw [Kleene.Vec.kv_get_coe_lt (by omega),
        Kleene.Vec.kv_setNat_get_other hwf (by omega),
        Kleene.Vec.kv_getU_ge hwf hj1]
    · intro j hj
      rw [Kleene.Vec.kv_get_coe_lt (by omega),
        Kleene.Vec.kv_get_coe_lt (by omega),
        Kleene.Vec.kv_setNat_get_other hwf (by omega)]

/-- Witness for C4: `New(10)` then `Set(100, True)` on both logics. -/
theorem claim_C4_set_auto_grow_witness :
    ((Attic.BelnapVec.NewBelnapVec 10).setNat 100 .True).width = 101 ∧
    ((Attic.BelnapVec.NewBelnapVec 10).setNat 100 .True).Get
      ((100 : Nat) : Int) = .ok .True ∧
    ((Attic.BelnapVec.NewBelnapVec 10).setNat 100 .True).Get
      ((50 : Nat) : Int) = .ok .Unknown ∧
    ((Kleene.Vec.NewVec 10).setNat 100 .True).width = 101 ∧
    ((Kleene.Vec.NewVec 10).setNat 100 .True).Get
      ((100 : Nat) : Int) = .ok .True := by
  have h := claim_C4_set_auto_grow
  have h1 := h.1 (Attic.BelnapVec.NewBelnapVec 10) 100 .True
    (Attic.BelnapVec.wf_new 10) (by decide)
  have h2 := h.2 (Kleene.Vec.NewVec 10) 100 .True
    (Kleene.Vec.kv_wf_new 10) (by decide)
  exact ⟨h1.2.1, h1.2.2.1, h1.2.2.2.1 50 (by decide) (by decide),
    h2.2.1, h2.2.2.1⟩

/-- C5: `Truncate` is a no-op at or above the current width and otherwise
keeps exactly the words needed, preserves every surviving element and
re-masks the tail to Unknown; `Resize` shrinks via `Truncate` and grows by
filling every index of `[oldWidth, newWidth)` with `fill` while leaving
lower indices unchanged — including growth across a word boundary and growth
from width 0, with the spec's concrete examples checked on both logics. -/
theorem claim_C5_truncate_resize :
    (∀ v : Attic.BelnapVec, v.Wf → ∀ n : Nat,
      (v.width ≤ n → v.Truncate n = v) ∧
      (n < v.width →
        (v.Truncate n).width = n ∧
        (v.Truncate n).words.length = wordsNeeded n ∧
        (∀ j : Nat, j < n → (v.Truncate n).Get (j : Int) = v.Get (j : Int)) ∧
        (∀ j : Nat, n ≤ j → (v.Truncate n).getUnchecked j = .Unknown))) ∧
    (∀ v : Attic.BelnapVec, v.Wf → ∀ (n : Nat) (fill : Belnap.Value),
      (n ≤ v.width → v.Resize n fill = v.Truncate n) ∧
      (v.width < n →
        (v.Resize n fill).width = n ∧
        (∀ j : Nat, j < v.width →
          (v.Resize n fill).Get (j : Int) = v.Get (j : Int)) ∧
        (∀ j : Nat, v.width ≤ j → j < n →
          (v.Resize n fill).Get (j : Int) = .ok fill))) ∧
    (∀ v : Kleene.Vec, v.Wf → ∀ n : Nat,
      (v.width ≤ n → v.Truncate n = v) ∧
      (n < v.width →
        (v.Truncate n).width = n ∧
        (v.Truncate n).words.length = wordsNeeded n ∧
        (∀ j : Nat, j < n → (v.Truncate n).Get (j : Int) = v.Get (j : Int)) ∧
        (∀ j : Nat, n ≤ j → (v.Truncate n).getUnchecked j = .Unknown))) ∧
    (∀ v : Kleene.Vec, v.Wf → ∀ (n : Nat) (fill : Kleene),
      (n ≤ v.width → v.Resize n fill = v.Truncate n) ∧
      (v.width < n →
        (v.Resize n fill).width = n ∧
        (∀ j : Nat, j < v.width →
          (v.Resize n fill).Get (j : Int) = v.Get (j : Int)) ∧
        (∀ j : Nat, v.width ≤ j → j < n →
          (v.Resize n fill).Get (j : Int) = .ok fill))) ∧
    ((Attic.BelnapVec.BelnapAllTrue 10).Resize 100 .Unknown).CountTrue =
      10 ∧
    ((Attic.BelnapVec.BelnapAllTrue 10).Resize 100 .Unknown).CountUnknown =
      90 ∧
    ((Attic.BelnapVec.BelnapAllTrue 200).Truncate 65).width = 65 ∧
    ((Attic.BelnapVec.BelnapAllTrue 200).Truncate 65).IsAllTrue = true ∧
    ((Attic.BelnapVec.BelnapAllTrue 200).Truncate 65).CountTrue = 65 ∧
    ((Kleene.Vec.AllTrue 10).Resize 100 .Unknown).CountTrue = 10 ∧
    ((Kleene.Vec.AllTrue 10).Resize 100 .Unknown).CountUnknown = 90 ∧
    ((Kleene.Vec.AllTrue 200).Truncate 65).width = 65 ∧
    ((Kleene.Vec.AllTrue 200).Truncate 65).IsAllTrue = true ∧
    ((Kleene.Vec.AllTrue 200).Truncate 65).CountTrue = 65 := by
  refine ⟨?_, ?_, ?_, ?_, by decide, by decide, by decide, by decide,
    by decide, by decide, by decide, by decide, by decide, by decide⟩
  · intro v hwf n
    constructor
    · intro h
      unfold Attic.BelnapVec.Truncate
      rw [if_pos h]
    · intro h
      have hw : (v.Truncate n).width = n := Attic.BelnapVec.truncate_width h
      refine ⟨hw, Attic.BelnapVec.truncate_length hwf h, ?_, ?_⟩
      · intro j hj
        rw [Attic.BelnapVec.get_coe_lt (by omega),
          Attic.BelnapVec.get_coe_lt (by omega),
          Attic.BelnapVec.truncate_get_lt h hj]
      · intro j hj
        have hwt := Attic.BelnapVec.wf_truncate hwf n
        exact Attic.BelnapVec.getU_ge hwt (by omega)
  · intro v hwf n fill
    constructor
    · intro h
      unfold Attic.BelnapVec.Resize
      rw [if_pos h]
    · intro h
      have hw : (v.Resize n fill).width = n :=
        Attic.BelnapVec.resize_width h fill
      refine ⟨hw, ?_, ?_⟩
      · intro j hj
        rw [Attic.BelnapVec.get_coe_lt (by omega),
          Attic.BelnapVec.get_coe_lt (by omega),
          Attic.BelnapVec.resize_get_old hwf h fill hj]
      · intro j hj1 hj2
        rw [Attic.BelnapVec.get_coe_lt (by omega),
          Attic.BelnapVec.resize_get_fill hwf h fill hj1 hj2]
  · intro v hwf n
    constructor
    · intro h
      unfold Kleene.Vec.Truncate
      rw [if_pos h]
    · intro h
      have hw : (v.Truncate n).width = n := Kleene.Vec.kv_truncate_width h
      refine ⟨hw, Kleene.Vec.kv_truncate_length hwf h, ?_, ?_⟩
      · intro j hj
        rw [Kleene.Vec.kv_get_coe_lt (by omega),
          Kleene.Vec.kv_get_coe_lt (by omega),
          Kleene.Vec.kv_truncate_get_lt hwf h hj]
      · intro j hj
        have hwt := Kleene.Vec.kv_wf_truncate hwf n
        exact Kleene.Vec.kv_getU_ge hwt (by omega)
  · intro v hwf n fill
    constructor
    · intro h
      unfold Kleene.Vec.Resize
      rw [if_pos h]
    · intro h
      have hw : (v.Resize n fill).width = n := Kleene.Vec.kv_resize_width h fill
      refine ⟨hw, ?_, ?_⟩
      · intro j hj
        rw [Kleene.Vec.kv_get_coe_lt (by omega),
          Kleene.Vec.kv_get_coe_lt (by omega),
          Kleene.Vec.kv_resize_get_old hwf h fill hj]
      · intro j hj1 hj2
        rw [Kleene.Vec.kv_get_coe_lt (by omega),
          Kleene.Vec.kv_resize_get_fill hwf h fill hj1 hj2]

/-- Witness for C5 on concrete vectors of both logics. -/
theorem claim_C5_truncate_resize_witness :
    ((Attic.BelnapVec.BelnapAllTrue 10).Resize 100 .Unknown).Get
      ((50 : Nat) : Int) = .ok .Unknown ∧
    ((Attic.BelnapVec.BelnapAllTrue 10).Resize 100 .Unknown).Get
      ((5 : Nat) : Int) = (Attic.BelnapVec.BelnapAllTrue 10).Get
        ((5 : Nat) : Int) ∧
    ((Attic.BelnapVec.BelnapAllTrue 200).Truncate 65).getUnchecked 70 =
      .Unknown ∧
    (Attic.BelnapVec.BelnapAllTrue 200).Truncate 300 =
      Attic.BelnapVec.BelnapAllTrue 200 ∧
    ((Kleene.Vec.AllTrue 10).Resize 100 .Unknown).Get ((50 : Nat) : Int) =
      .ok .Unknown := by
  have h := claim_C5_truncate_resize
  refine ⟨(((h.2.1 (Attic.BelnapVec.BelnapAllTrue 10)
      (Attic.BelnapVec.wf_filled 10 .True) 100
      .Unknown).2 (by decide)).2.2) 50 (by decide) (by decide),
    (((h.2.1 (Attic.BelnapVec.BelnapAllTrue 10)
      (Attic.BelnapVec.wf_filled 10 .True) 100
      .Unknown).2 (by decide)).2.1) 5 (by decide),
    (((h.1 (Attic.BelnapVec.BelnapAllTrue 200)
      (Attic.BelnapVec.wf_filled 200 .True) 65).2
      (by decide)).2.2.2) 70 (by decide),
    ((h.1 (Attic.BelnapVec.BelnapAllTrue 200)
      (Attic.BelnapVec.wf_filled 200 .True) 300).1
      (by decide)),
    (((h.2.2.2.1 (Kleene.Vec.AllTrue 10) (Kleene.Vec.wf_allTrue 10) 100
      .Unknown).2 (by decide)).2.2) 50 (by decide) (by decide)⟩

/-- C3: every constructing or mutating operation of the 4-valued attic
vector and of the 3-valued kleene vector yields well-formed vectors: exact
word count, all packed bits at positions at or beyond the width zero, and —
for the 3-valued known/value representation — no position with the value
bit set but the known bit clear (so no 3-valued position can ever read as a
contradiction). -/
theorem claim_C3_invariants_preserved :
    (∀ w, (Attic.BelnapVec.NewBelnapVec w).Wf) ∧
    (∀ w, (Attic.BelnapVec.BelnapAllTrue w).Wf) ∧
    (∀ w, (Attic.BelnapVec.BelnapAllFalse w).Wf) ∧
    (∀ (v v' : Attic.BelnapVec) (i : Int) (val : Belnap.Value), v.Wf →
      v.Set i val = some v' → v'.Wf) ∧
    (∀ (v : Attic.BelnapVec) (n : Nat), v.Wf → (v.Truncate n).Wf) ∧
    (∀ (v : Attic.BelnapVec) (n : Nat) (fill : Belnap.Value), v.Wf →
      (v.Resize n fill).Wf) ∧
    (∀ v : Attic.BelnapVec, v.Wf → v.Not.Wf) ∧
    (∀ v o : Attic.BelnapVec, v.Wf → o.Wf → (v.And o).Wf) ∧
    (∀ v o : Attic.BelnapVec, v.Wf → o.Wf → (v.Or o).Wf) ∧
    (∀ v o : Attic.BelnapVec, v.Wf → o.Wf → (v.Merge o).Wf) ∧
    (∀ v o : Attic.BelnapVec, v.Wf → o.Wf → (v.Implies o).Wf) ∧
    (∀ w, (Kleene.Vec.NewVec w).Wf) ∧
    (∀ w, (Kleene.Vec.AllTrue w).Wf) ∧
    (∀ w, (Kleene.Vec.AllFalse w).Wf) ∧
    (∀ (v v' : Kleene.Vec) (i : Int) (val : Kleene), v.Wf →
      v.Set i val = some v' → v'.Wf) ∧
    (∀ (v : Kleene.Vec) (n : Nat), v.Wf → (v.Truncate n).Wf) ∧
    (∀ (v : Kleene.Vec) (n : Nat) (fill : Kleene), v.Wf →
      (v.Resize n fill).Wf) ∧
    (∀ v : Kleene.Vec, v.Wf → v.Not.Wf) ∧
    (∀ (v o r : Kleene.Vec), v.Wf → o.Wf → v.And o = some r → r.Wf) ∧
    (∀ (v o r : Kleene.Vec), v.Wf → o.Wf → v.Or o = some r → r.Wf) ∧
    (∀ (v o r : Kleene.Vec), v.Wf → o.Wf → v.Implies o = some r → r.Wf) := by
  refine ⟨Attic.BelnapVec.wf_new,
    fun w => Attic.BelnapVec.wf_filled w .True,
    fun w => Attic.BelnapVec.wf_filled w .False, ?_,
    fun v n hwf => Attic.BelnapVec.wf_truncate hwf n,
    fun v n fill hwf => Attic.BelnapVec.wf_resize hwf n fill,
    fun v hwf => Attic.BelnapVec.wf_not hwf,
    fun v o hv ho => Attic.BelnapVec.wf_and hv ho,
    fun v o hv ho => Attic.BelnapVec.wf_or hv ho,
    fun v o hv ho => Attic.BelnapVec.wf_merge hv ho,
    fun v o hv ho => Attic.BelnapVec.wf_implies hv ho,
    Kleene.Vec.kv_wf_new, Kleene.Vec.wf_allTrue, Kleene.Vec.wf_allFalse, ?_,
    fun v n hwf => Kleene.Vec.kv_wf_truncate hwf n,
    fun v n fill hwf => Kleene.Vec.kv_wf_resize hwf n fill,
    fun v hwf => Kleene.Vec.kv_wf_not hwf,
    fun v o r hv ho hr => Kleene.Vec.kv_wf_and hv ho hr,
    fun v o r hv ho hr => Kleene.Vec.kv_wf_or hv ho hr,
    fun v o r hv ho hr => Kleene.Vec.kv_wf_implies hv ho hr⟩
  · intro v v' i val hwf hset
    unfold Attic.BelnapVec.Set at hset
    split at hset
    · cases hset
    · injection hset with hset
      subst hset
      exact Attic.BelnapVec.wf_setNat hwf i.toNat val
  · intro v v' i val hwf hset
    unfold Kleene.Vec.Set at hset
    split at hset
    · cases hset
    · injection hset with hset
      subst hset
      exact Kleene.Vec.kv_wf_setNat hwf i.toNat val

/-- Witness for C3 at concrete vectors: the preservation statements applied
to small inputs of both logics. -/
theorem claim_C3_invariants_preserved_witness :
    ((Attic.BelnapVec.NewBelnapVec 70).Truncate 5).Wf ∧
    ((Attic.BelnapVec.BelnapAllTrue 70).Resize 130 .Both).Wf ∧
    ((Attic.BelnapVec.BelnapAllTrue 10).And
      (Attic.BelnapVec.BelnapAllFalse 100)).Wf ∧
    ((Kleene.Vec.AllTrue 70).Resize 130 .False).Wf ∧
    (Kleene.Vec.AllTrue 70).Not.Wf := by
  have h := claim_C3_invariants_preserved
  exact ⟨h.2.2.2.2.1 (Attic.BelnapVec.NewBelnapVec 70) 5
      (Attic.BelnapVec.wf_new 70),
    h.2.2.2.2.2.1 (Attic.BelnapVec.BelnapAllTrue 70) 130 .Both
      (Attic.BelnapVec.wf_filled 70 .True),
    h.2.2.2.2.2.2.2.1 (Attic.BelnapVec.BelnapAllTrue 10)
      (Attic.BelnapVec.BelnapAllFalse 100)
      (Attic.BelnapVec.wf_filled 10 .True)
      (Attic.BelnapVec.wf_filled 100 .False),
    h.2.2.2.2.2.2.2.2.2.2.2.2.2.2.2.2.1 (Kleene.Vec.AllTrue 70) 130 .False
      (Kleene.Vec.wf_allTrue 70),
    h.2.2.2.2.2.2.2.2.2.2.2.2.2.2.2.2.2.1 (Kleene.Vec.AllTrue 70)
      (Kleene.Vec.wf_allTrue 70)⟩
